import Mathlib

/-!
Verification development for the agentflux repository.

This file gives a shallow embedding, in Lean 4, of the pieces of the
repository that the verified properties talk about:

* `vision_analyzer.py` — response parsing (`_parse_response`), chunk merging
  (`_merge_analysis_chunks` and its `_map_*` helpers), and the top-level
  error recovery in `analyze_screenshot`;
* `ab_test_generator.py` — variation creation (`_create_variation` step 5),
  image generation (`_generate_variation_image_with_screenshot`), the quality
  check (`_quality_check_image`), regeneration (`_regenerate_with_feedback`),
  size selection (`_get_optimal_generation_size`) and the all-patterns driver
  (`_generate_all_variations`);
* `stylizer.py` — batched style application (`_apply_styles_to_image`).

Modelling conventions: Python dicts whose values are JSON data are
association lists over a `JsonVal` inductive; raising is an `Except String`
result; external calls (the OpenAI / Replicate endpoints, `json.loads`,
file reads) are parameters of the embedded functions; response strings are
`List Char`.  Python's float arithmetic in `_get_optimal_generation_size`
is modelled with exact rationals.
-/

namespace AgentFlux

/-- JSON-like values as produced by Python's `json.loads`.  Numbers are
modelled as integers (no claim in this development depends on float
values). -/
inductive JsonVal where
  | str : String → JsonVal
  | num : Int → JsonVal
  | bool : Bool → JsonVal
  | null : JsonVal
  | arr : List JsonVal → JsonVal
  | obj : List (String × JsonVal) → JsonVal

/-- A Python dict with string keys and JSON values, in insertion order. -/
abbrev Dict := List (String × JsonVal)

/-- The list of keys of a dict, in insertion order. -/
def dictKeys (d : Dict) : List String := d.map Prod.fst

/-- Python's `k in d` membership test on a dict. -/
def dictMem (k : String) (d : Dict) : Bool := d.any (fun p => p.1 = k)

/-- Python's `d[k]` lookup (first entry with the key; dicts built by
`dictInsert` have unique keys). -/
def dictLookup (k : String) : Dict → Option JsonVal
  | [] => none
  | (k', v) :: rest => if k' = k then some v else dictLookup k rest

/-- Python's `d[k] = v` assignment: updates the entry in place when the key
is present, appends a new entry otherwise. -/
def dictInsert (d : Dict) (k : String) (v : JsonVal) : Dict :=
  if dictMem k d then d.map (fun p => if p.1 = k then (k, v) else p)
  else d ++ [(k, v)]

/-- Applying a list of `d[k] = v` assignments in order. -/
def applyUpdates (d : Dict) (us : List (String × JsonVal)) : Dict :=
  us.foldl (fun d' u => dictInsert d' u.1 u.2) d

/-- The keys a list of assignments adds to a dict whose key list is `ks`,
in first-assignment order. -/
def newKeys (ks : List String) : List String → List String
  | [] => []
  | k :: rest => if k ∈ ks then newKeys ks rest else k :: newKeys (ks ++ [k]) rest

/-- The value of the last assignment to `k` in a list of assignments. -/
def lastAssign (k : String) : List (String × JsonVal) → Option JsonVal
  | [] => none
  | (k', v) :: rest =>
    match lastAssign k rest with
    | some w => some w
    | none => if k' = k then some v else none

/-! ## `vision_analyzer.py` — response parsing and chunk merging

The canonical schema keys come from `design_schema.py`
(`DesignSchema.schema_template`); `_merge_analysis_chunks` reads only the
keys of that template (`schema.schema_template.keys()`), never the values,
so only the key list is embedded. -/

/-- The key list of `DesignSchema.schema_template`, in source order. -/
def schemaKeys : List String :=
  ["Typography",
   "Color & Contrast",
   "Layout & Grid System",
   "Spacing & Sizing Tokens",
   "Imagery",
   "Illustration & Iconography",
   "Logo Usage",
   "Buttons & Calls-to-Action",
   "Form & Input Styling",
   "Navigation & Header",
   "Cards / Panels / Containers",
   "Shadows & Elevation",
   "Borders & Dividers",
   "Motion & Animation",
   "Micro-Interactions",
   "Media Blocks (Video / Audio / 3-D)",
   "Backgrounds",
   "Dark-Mode / High-Contrast Variants",
   "Accessibility Visuals",
   "Data-Viz & Infographics",
   "Cursors & Pointer States",
   "Tone & Mood Descriptors",
   "Reusable Brand Motifs",
   "Favicons & Social Preview Assets"]

/-- Python's `x.get(k, default)`: returns the default when the key is
absent, raises `AttributeError` when `x` is not a dict. -/
def pyGet (v : JsonVal) (k : String) (dflt : JsonVal) : Except String JsonVal :=
  match v with
  | .obj kvs => .ok ((dictLookup k kvs).getD dflt)
  | _ => .error "AttributeError: no attribute get"

/-- Python's `list(x.values())`: raises `AttributeError` when `x` is not a
dict. -/
def pyValues (v : JsonVal) : Except String JsonVal :=
  match v with
  | .obj kvs => .ok (.arr (kvs.map Prod.snd))
  | _ => .error "AttributeError: no attribute values"

/-- Python's `str()` as used in the f-strings of `_map_layout` and
`_map_buttons`.  The rendering of containers is abbreviated; no verified
property depends on these rendered strings, only on whether the mapping
raises. -/
def pyStr : JsonVal → String
  | .str s => s
  | .num n => toString n
  | .bool true => "True"
  | .bool false => "False"
  | .null => "None"
  | .arr _ => "[...]"
  | .obj _ => "\x7b...\x7d"

/-- `VisionAnalyzer._map_typography`. -/
def mapTypography (t : JsonVal) : Except String JsonVal := do
  let ff ← pyGet t "fontFamilies" (.arr [.str "Not specified"])
  let fw ← pyGet t "fontWeights" (.obj [])
  let fwv ← pyValues fw
  let fs ← pyGet t "fontSizes" (.obj [])
  let lh ← pyGet t "lineHeights" (.obj [])
  let ls ← pyGet t "letterSpacing" (.obj [])
  pure (.obj
    [("Primary, secondary & fallback font families (web-safe or web-hosted)", ff),
     ("Weight spectrum to use (e.g., 300, 400, 600, 700)", fwv),
     ("Heading sizes (H1-H6) with exact px/rem values", fs),
     ("Line-height & paragraph spacing rules", lh),
     ("Letter-spacing / tracking values by text role", ls)])

/-- `VisionAnalyzer._map_colors` (applied to the whole chunk). -/
def mapColors (c : JsonVal) : Except String JsonVal := do
  let colors ← pyGet c "colorPalette" c
  let p ← pyGet colors "primary" (.obj [])
  let n ← pyGet colors "neutral" (.obj [])
  let s ← pyGet colors "semantic" (.obj [])
  let g ← pyGet c "gradients" (.arr [])
  pure (.obj
    [("Brand primaries, secondaries, accents (hex/RGB/HSL)", p),
     ("Neutral/gray scale set", n),
     ("Success, warning, error, info colors", s),
     ("Gradient definitions (angle, stops)", g)])

/-- `VisionAnalyzer._map_layout` (applied to the whole chunk). -/
def mapLayout (c : JsonVal) : Except String JsonVal := do
  let cw ← pyGet c "containerWidths" (.obj [])
  let maxw ← pyGet cw "extraLarge" (.str "Not specified")
  let gs ← pyGet c "gridSystem" (.obj [])
  let cols ← pyGet gs "columns" (.num 12)
  let guts ← pyGet gs "gutters" (.str "default")
  let bps ← pyGet gs "breakpoints" (.obj [])
  let sp ← pyGet c "spacingPatterns" (.obj [])
  let bu ← pyGet sp "baseUnit" (.str "8px")
  pure (.obj
    [("Maximum content width / full-bleed rules", maxw),
     ("Column count, gutter width, and margin specs",
       .str (pyStr cols ++ " columns, " ++ pyStr guts ++ " gutters")),
     ("Responsive breakpoints & how the grid adapts", bps),
     ("Vertical rhythm unit (e.g., 4 px or 8 px scale)", bu)])

/-- `VisionAnalyzer._map_buttons`. -/
def mapButtons (b : JsonVal) : Except String JsonVal := do
  let primary ← pyGet b "primaryButton" (.obj [])
  let pad ← pyGet primary "padding" (.str "default")
  let rad ← pyGet primary "borderRadius" (.str "default")
  let fsz ← pyGet primary "fontSize" (.str "default")
  let fwt ← pyGet primary "fontWeight" (.str "default")
  let hov ← pyGet primary "hoverState" (.obj [])
  pure (.obj
    [("Primary, secondary, tertiary button styles", b),
     ("Padding, min-width & height, corner radius",
       .str ("Padding: " ++ pyStr pad ++ ", Radius: " ++ pyStr rad)),
     ("Text style (size, weight, letter-spacing)",
       .str ("Size: " ++ pyStr fsz ++ ", Weight: " ++ pyStr fwt)),
     ("State styles: default, hover, active, focus, disabled", hov)])

/-- One guarded category assignment of the merge loop body: when the chunk
triggers the category (`a.1`), evaluate the mapped value (`a.2.2`, which can
raise) and assign it to the category key (`a.2.1`). -/
def guardedSet (d : Except String Dict) (a : Bool × String × Except String JsonVal) :
    Except String Dict := do
  let d' ← d
  if a.1 then do
    let v ← a.2.2
    pure (dictInsert d' a.2.1 v)
  else pure d'

/-- The six guarded category assignments in the body of the
`for chunk in chunks` loop of `_merge_analysis_chunks`, in source order. -/
def categoryActions (kvs : Dict) : List (Bool × String × Except String JsonVal) :=
  [(dictMem "typography" kvs, "Typography",
      mapTypography ((dictLookup "typography" kvs).getD .null)),
   (dictMem "colorPalette" kvs || dictMem "primary" kvs, "Color & Contrast",
      mapColors (.obj kvs)),
   (dictMem "gridSystem" kvs || dictMem "spacingPatterns" kvs, "Layout & Grid System",
      mapLayout (.obj kvs)),
   (dictMem "buttonStyles" kvs, "Buttons & Calls-to-Action",
      mapButtons ((dictLookup "buttonStyles" kvs).getD .null)),
   (dictMem "formElements" kvs, "Form & Input Styling",
      .ok ((dictLookup "formElements" kvs).getD .null)),
   (dictMem "cardDesigns" kvs, "Cards / Panels / Containers",
      .ok ((dictLookup "cardDesigns" kvs).getD .null))]

/-- One iteration of the `for chunk in chunks` loop of
`_merge_analysis_chunks`.  A chunk that is not a dict raises (in the source
such a chunk already raises at the `chunk.keys()` debug print of
`_parse_response`). -/
def mergeChunkInto (d : Dict) (c : JsonVal) : Except String Dict :=
  match c with
  | .obj kvs => (categoryActions kvs).foldl guardedSet (.ok d)
  | _ => .error "TypeError: chunk is not a dict"

/-- The whole `for chunk in chunks` loop. -/
def mergeLoop (d : Dict) : List JsonVal → Except String Dict
  | [] => .ok d
  | c :: rest =>
    match mergeChunkInto d c with
    | .error e => .error e
    | .ok d' => mergeLoop d' rest

/-- The `"Analysis not available for ... category"` placeholder. -/
def notAvailable (k : String) : JsonVal :=
  .str ("Analysis not available for " ++ k ++ " category")

/-- The fill-in loop at the end of `_merge_analysis_chunks`:
`for key in schema_keys: if key not in merged: merged[key] = ...`. -/
def fillMissing (ks : List String) (d : Dict) : Dict :=
  ks.foldl (fun d' k => if dictMem k d' then d' else dictInsert d' k (notAvailable k)) d

/-- The cross-call mutable state of a `VisionAnalyzer` instance:
`_accumulated_chunks` (absent ≡ `[]`; it is only ever extended with
non-empty chunk lists) and `_last_successful_merge` (absent ≡ `none`). -/
structure AnalyzerState where
  accumulated : List JsonVal
  lastMerge : Option JsonVal

/-- The state of a freshly constructed `VisionAnalyzer`. -/
def initState : AnalyzerState := ⟨[], none⟩

/-- `VisionAnalyzer._merge_analysis_chunks`.  Returns the merged result (or
the raised error) together with the updated state.  Note the source first
sets `chunks = self._accumulated_chunks + chunks` and then
`self._accumulated_chunks.extend(chunks)`, so the accumulator grows by
`accumulated ++ newChunks` on every call; the accumulator is extended even
when a later mapping raises. -/
def mergeAnalysisChunks (st : AnalyzerState) (newChunks : List JsonVal) :
    Except String JsonVal × AnalyzerState :=
  let chunks := st.accumulated ++ newChunks
  let st' : AnalyzerState := ⟨st.accumulated ++ chunks, st.lastMerge⟩
  match mergeLoop [] chunks with
  | .error e => (.error e, st')
  | .ok d => (.ok (.obj (fillMissing schemaKeys d)), st')

/-! ### `_parse_response`: fenced-block scanning and the bracket-span
fallback.  Response text is a `List Char`; `json.loads` is a parameter
`loads : List Char → Option JsonVal` (`none` = `json.JSONDecodeError`). -/

/-- Whether `pat` is an initial segment of `l`. -/
def startsWithChars : List Char → List Char → Bool
  | [], _ => true
  | _ :: _, [] => false
  | p :: ps, c :: cs => p = c && startsWithChars ps cs

/-- Python's `text.find(pat)`: index of the leftmost occurrence (`none` for
`-1`). -/
def findSub (pat : List Char) : List Char → Option Nat
  | [] => if pat.isEmpty then some 0 else none
  | c :: rest =>
    if startsWithChars pat (c :: rest) then some 0
    else (findSub pat rest).map (fun n => n + 1)

/-- Python's `text.strip()`. -/
def pyStrip (l : List Char) : List Char :=
  ((l.dropWhile Char.isWhitespace).reverse.dropWhile Char.isWhitespace).reverse

/-- The characters of the opening fence marker `(backtick)(backtick)(backtick)json`. -/
def fenceMarker : List Char := ("```json").toList

/-- The characters of a closing fence `(backtick)(backtick)(backtick)`. -/
def fenceClose : List Char := ("```").toList

/-- The `while '(fence)json' in text` scanning loop of `_parse_response`,
with explicit fuel; every iteration consumes at least the 7-character
opening marker, so `text.length` is always enough fuel
(`extractJsonBlocksFuel_stable` below). -/
def extractJsonBlocksFuel : Nat → List Char → List (List Char)
  | 0, _ => []
  | fuel + 1, text =>
    match findSub fenceMarker text with
    | none => []
    | some i =>
      let after := text.drop (i + 7)
      match findSub fenceClose after with
      | none => []
      | some j => pyStrip (after.take j) :: extractJsonBlocksFuel fuel (after.drop (j + 3))

/-- The raw text of every fenced block found by the scanning loop of
`_parse_response`, in order. -/
def extractJsonBlocks (text : List Char) : List (List Char) :=
  extractJsonBlocksFuel text.length text

/-- The bracket-span fallback of `_parse_response`: the substring from the
first `{` to the last `}` (`none` when either bracket is missing). -/
def bracketSpan (text : List Char) : Option (List Char) :=
  match List.findIdx? (fun c => c = Char.ofNat 123) text,
        (List.findIdx? (fun c => c = Char.ofNat 125) text.reverse).map
          (fun j => text.length - 1 - j) with
  | some i, some j => some ((text.drop i).take (j + 1 - i))
  | _, _ => none

/-- Parsing all fenced blocks: blocks `json.loads` rejects are skipped
(`except json.JSONDecodeError: pass`); a block that parses to a non-dict
raises at the `list(chunk.keys())` debug print, which escapes to the outer
handler of `_parse_response`. -/
def collectChunks (loads : List Char → Option JsonVal) :
    List (List Char) → Except String (List JsonVal)
  | [] => .ok []
  | b :: rest =>
    match loads b with
    | none => collectChunks loads rest
    | some (.obj kvs) => (collectChunks loads rest).map (fun cs => JsonVal.obj kvs :: cs)
    | some _ => .error "AttributeError: no attribute keys"

/-- `VisionAnalyzer._parse_response`.  Any exception inside the body is
re-raised as `ValueError("Failed to parse response: ...")`; a successful
chunk merge is stored in `_last_successful_merge`. -/
def parseResponse (loads : List Char → Option JsonVal) (st : AnalyzerState)
    (text : List Char) : Except String JsonVal × AnalyzerState :=
  match collectChunks loads (extractJsonBlocks text) with
  | .error e => (.error ("Failed to parse response: " ++ e), st)
  | .ok chunks =>
    if chunks.isEmpty then
      match bracketSpan text with
      | none => (.error "Failed to parse response: No JSON found in response", st)
      | some span =>
        match loads span with
        | none => (.error "Failed to parse response: JSONDecodeError", st)
        | some v => (.ok v, st)
    else
      match mergeAnalysisChunks st chunks with
      | (.error e, st') => (.error ("Failed to parse response: " ++ e), st')
      | (.ok m, st') => (.ok m, ⟨st'.accumulated, some m⟩)

/-- `VisionAnalyzer.analyze_screenshot`.  The selected analysis path (custom
prompt, multi-stage, or single-stage — all driven by external model calls)
is abstracted as its outcome `stageOutcome`; `st` is the analyzer state at
the moment the outcome is known.  On an exception the method falls back to
`_last_successful_merge` when that attribute exists, otherwise re-raises
`Exception("Vision analysis failed: ...")`. -/
def analyzeScreenshot (st : AnalyzerState) (stageOutcome : Except String JsonVal) :
    Except String JsonVal :=
  match stageOutcome with
  | .ok r => .ok r
  | .error e =>
    match st.lastMerge with
    | some m => .ok m
    | none => .error ("Vision analysis failed: " ++ e)

/-! ## `ab_test_generator.py` -/

/-- Python truthiness of a JSON value, as used by
`quality_check.get('regeneration_needed', False)`. -/
def pyTruthy : JsonVal → Bool
  | .bool b => b
  | .null => false
  | .num n => n ≠ 0
  | .str s => s ≠ ""
  | .arr l => !l.isEmpty
  | .obj l => !l.isEmpty

/-- Truthiness of `d.get(k)` for a key that is either absent (`None`) or a
string, as used on the `local_path` / `error` keys of image-result dicts. -/
def truthyOptStr : Option String → Bool
  | none => false
  | some s => s ≠ ""

/-- An image-result dict as built by
`_generate_variation_image_with_screenshot`, `_generate_text_only_variation`
and `_regenerate_with_feedback`.  The fields are the keys the embedded
control flow reads (`local_path`, `error`, `quality_improved`,
`quality_check`); `meta` carries the remaining bookkeeping keys. -/
structure ImageResult where
  local_path : Option String := none
  error : Option String := none
  quality_improved : Bool := false
  quality_check : Option Dict := none
  meta : Dict := []

/-- `ABTestGenerator._get_optimal_generation_size`.  Python's float
`aspect_ratio` and the size table's float ratios are modelled as exact
rationals; dividing by a zero height raises. -/
def getOptimalGenerationSize (w h : Nat) : Except String String :=
  if h = 0 then .error "ZeroDivisionError: division by zero"
  else
    let ar : ℚ := (w : ℚ) / (h : ℚ)
    if h < w then .ok "1536x1024"
    else
      let availableSizes : List (String × ℚ) :=
        [("1536x1024", 3 / 2), ("1024x1024", 1), ("1024x1536", 667 / 1000)]
      let best := availableSizes.foldl
        (fun (b : String × Option ℚ) sz =>
          match b.2 with
          | none => (sz.1, some |ar - sz.2|)
          | some bd => if |ar - sz.2| < bd then (sz.1, some |ar - sz.2|) else b)
        ("1024x1024", none)
      .ok best.1

/-- The size table of `_get_optimal_generation_size`, as the spec describes
it: the three available generation sizes with their aspect ratios. -/
def specAvailableSizes : List (String × ℚ) :=
  [("1536x1024", 3 / 2), ("1024x1024", 1), ("1024x1536", 667 / 1000)]

/-- The output path `outputs/variations/variation_(ts).png` built by
`_generate_variation_image_with_screenshot`. -/
def variationImagePath (ts : String) : String :=
  "outputs/variations/variation_" ++ ts ++ ".png"

/-- The output path `outputs/variations/variation_(ts)_improved.png` built by
`_regenerate_with_feedback`. -/
def improvedImagePath (ts : String) : String :=
  "outputs/variations/variation_" ++ ts ++ "_improved.png"

/-- `ABTestGenerator._generate_variation_image_with_screenshot`.
`screenshotPath` is the result of `_get_original_screenshot_path`; `w`/`h`
are the screenshot dimensions (read with a PIL fallback of 1365x768);
`edit size` is the outcome of the `client.images.edit(..., size=size)` call
together with the decode-and-save steps; `ts` is the timestamp; `textOnly`
is the result of the `_generate_text_only_variation` fallback.  All
exceptions inside the `try` produce an error dict instead of raising. -/
def generateVariationImageWithScreenshot (screenshotPath : Option String)
    (w h : Nat) (edit : String → Except String String) (ts : String)
    (textOnly : ImageResult) : ImageResult :=
  match screenshotPath with
  | none => textOnly
  | some sp =>
    match getOptimalGenerationSize w h with
    | .error e =>
      { error := some e, meta := [("original_screenshot_path", .str sp)] }
    | .ok optimalSize =>
      match edit optimalSize with
      | .error e =>
        { error := some e, meta := [("original_screenshot_path", .str sp)] }
      | .ok _b64 =>
        { local_path := some (variationImagePath ts),
          meta := [("original_screenshot_path", .str sp),
                   ("generated_size", .str optimalSize),
                   ("model", .str "gpt-image-1")] }

/-- Python iteration over the `issues` value, as in the logging loop of
`_quality_check_image` and the feedback loop of `_regenerate_with_feedback`
(`for issue in ....get('issues', [])`): lists yield elements, dicts yield
their keys, strings yield one-character strings, everything else raises
`TypeError`. -/
def iterElems : JsonVal → Except String (List JsonVal)
  | .arr xs => .ok xs
  | .obj kvs => .ok (kvs.map (fun p => JsonVal.str p.1))
  | .str s => .ok (s.data.map (fun c => JsonVal.str (String.mk [c])))
  | _ => .error "TypeError: object is not iterable"

/-- The fixed quality-guideline text appended to the feedback instructions
in `_regenerate_with_feedback` (its exact content is not load-bearing for
the verified properties). -/
def generalQualityGuidelines : String :=
  "\n        \nADDITIONAL QUALITY REQUIREMENTS:\n• Ensure all text is clearly readable with proper contrast\n• Maintain consistent margins and spacing throughout\n• Use appropriate font sizes (minimum 14px for body text)\n• Ensure no elements overlap or clip\n• Keep visual hierarchy clear and organized\n• Maintain professional, polished appearance\n"

/-- `issue['severity'] in ['high', 'medium']`: Python list membership tests
by equality, never raises, and is false for every non-string severity. -/
def severityTriggersFix : JsonVal → Bool
  | .str s => s = "high" || s = "medium"
  | _ => false

/-- One step of the feedback-building loop of `_regenerate_with_feedback`
(`for issue in quality_feedback.get('issues', []): if issue['severity'] in
['high', 'medium']: feedback_instructions += f"..."`), which runs before
the `try` block: `issue['severity']` raises `TypeError` on a non-dict issue
and `KeyError` when the key is missing; on a high/medium issue,
`issue['type']` can raise `KeyError`, `.upper()` raises `AttributeError` on
a non-string, and `issue['fix']` can raise `KeyError`.  Returns the
appended line, if any. -/
def issueFeedbackLine (issue : JsonVal) : Except String (Option String) :=
  match issue with
  | .obj kvs =>
    match dictLookup "severity" kvs with
    | none => .error "KeyError: severity"
    | some sev =>
      if severityTriggersFix sev then
        match dictLookup "type" kvs with
        | none => .error "KeyError: type"
        | some (.str t) =>
          match dictLookup "fix" kvs with
          | none => .error "KeyError: fix"
          | some fv => .ok (some ("\n• FIX " ++ t.toUpper ++ ": " ++ pyStr fv))
        | some _ => .error "AttributeError: no attribute upper"
      else .ok none
  | _ => .error "TypeError: issue indices must be integers"

/-- The feedback-instruction construction at the top of
`_regenerate_with_feedback`, before the screenshot lookup and before the
`try`: it iterates `quality_feedback.get('issues', [])` with Python
iteration semantics and nothing catches an exception raised here, so an
error propagates out of `_regenerate_with_feedback`. -/
def buildFeedbackInstructions (qualityFeedback : Dict) : Except String String := do
  let items ← iterElems ((dictLookup "issues" qualityFeedback).getD (.arr []))
  let body ← items.foldlM
    (fun acc issue => do
      let line ← issueFeedbackLine issue
      pure (acc ++ line.getD ""))
    "\n\nCRITICAL QUALITY IMPROVEMENTS NEEDED:\n"
  pure (body ++ generalQualityGuidelines)

/-- The `improvements_applied` list comprehension
`[issue['type'] for issue in quality_feedback.get('issues', [])]` evaluated
in the success branch of `_regenerate_with_feedback` — inside the `try`, so
an issue without a `'type'` here becomes an error dict, not a raise. -/
def improvementsApplied (qualityFeedback : Dict) : Except String (List JsonVal) := do
  let items ← iterElems ((dictLookup "issues" qualityFeedback).getD (.arr []))
  items.mapM (fun issue =>
    match issue with
    | .obj kvs =>
      match dictLookup "type" kvs with
      | none => .error "KeyError: type"
      | some tv => .ok tv
    | _ => .error "TypeError: issue indices must be integers")

/-- `ABTestGenerator._regenerate_with_feedback`.  The feedback-instruction
construction runs first, outside any handler, so a malformed quality report
makes the whole call raise (`.error`).  After that, a missing screenshot, a
failing edit call (invoked with the hard-coded `size="1024x1024"`;
`edit size` returns `none` when the response carries no image data), or a
failing `improvements_applied` construction each produce an error dict
inside the `try`, never a raise. -/
def regenerateWithFeedback (qualityFeedback : Dict) (screenshotPath : Option String)
    (edit : String → Except String (Option String)) (ts : String) :
    Except String ImageResult :=
  match buildFeedbackInstructions qualityFeedback with
  | .error e => .error e
  | .ok _instructions =>
    match screenshotPath with
    | none => .ok { error := some "No original screenshot available" }
    | some sp =>
      match edit "1024x1024" with
      | .error e => .ok { error := some e }
      | .ok none => .ok { error := some "No image data in response" }
      | .ok (some _b64) =>
        match improvementsApplied qualityFeedback with
        | .error e => .ok { error := some e }
        | .ok _imps =>
          .ok { local_path := some (improvedImagePath ts),
                quality_improved := true,
                meta := [("original_screenshot_path", .str sp),
                         ("model", .str "gpt-image-1")] }

/-- The default report returned by `_quality_check_image` when its `try`
body raises. -/
def defaultQualityReport (e : String) : Dict :=
  [("has_issues", .bool false), ("regeneration_needed", .bool false), ("error", .str e)]

/-- The report returned by `_quality_check_image` when the response has no
content. -/
def noContentReport : Dict :=
  [("has_issues", .bool false), ("regeneration_needed", .bool false)]

/-- One step of the logging loop of `_quality_check_image`: evaluating
`issue['type']` and `issue['description'][:50]` can raise `KeyError` /
`TypeError`. -/
def issueLogCheck (issue : JsonVal) : Except String Unit :=
  match issue with
  | .obj kvs =>
    match dictLookup "type" kvs with
    | none => .error "KeyError: type"
    | some _ =>
      match dictLookup "description" kvs with
      | none => .error "KeyError: description"
      | some dv =>
        match dv with
        | .str _ => .ok ()
        | .arr _ => .ok ()
        | _ => .error "TypeError: unsliceable description"
  | _ => .error "TypeError: issue indices must be integers"

/-- The issue-logging block of `_quality_check_image`, which runs between a
successful parse and the `return quality_analysis`. -/
def logIssues (kvs : Dict) : Except String Unit :=
  if pyTruthy ((dictLookup "has_issues" kvs).getD (.bool false)) then do
    let items ← iterElems ((dictLookup "issues" kvs).getD (.arr []))
    items.forM issueLogCheck
  else .ok ()

/-- The body of the `try` in `_quality_check_image`: on non-empty content,
locate the first `{` and the last `}`, parse that span, log, and return the
parsed dict.  When either bracket is missing, `quality_analysis` is never
assigned and the subsequent read raises `NameError`. -/
def qualityCheckBody (loads : List Char → Option JsonVal) :
    Option (List Char) → Except String Dict
  | none => .ok noContentReport
  | some text =>
    if text.isEmpty then .ok noContentReport
    else
      match List.findIdx? (fun c => c = Char.ofNat 123) text,
            (List.findIdx? (fun c => c = Char.ofNat 125) text.reverse).map
              (fun j => text.length - 1 - j) with
      | some i, some j =>
        match loads ((text.drop i).take (j + 1 - i)) with
        | none => .error "JSONDecodeError"
        | some (.obj kvs) =>
          match logIssues kvs with
          | .error e => .error e
          | .ok _ => .ok kvs
        | some _ => .error "AttributeError: no attribute get"
      | _, _ => .error "NameError: quality_analysis is not defined"

/-- `ABTestGenerator._quality_check_image`.  `apiResult` is the outcome of
the `chat.completions.create` call (`.ok content` with the optional message
content, `.error` when it raises); any exception in the `try` yields the
default no-issues report. -/
def qualityCheckImage (loads : List Char → Option JsonVal)
    (apiResult : Except String (Option (List Char))) : Dict :=
  match (do
      let c ← apiResult
      qualityCheckBody loads c : Except String Dict) with
  | .ok r => r
  | .error e => defaultQualityReport e

/-- Step 5 of `ABTestGenerator._create_variation`, after the quality report
`qc` has been produced: regenerate at most once when the report asks for
it, keep the regenerated image only when it has a path and no error, and
attach the report.  The second component records whether
`_regenerate_with_feedback` was invoked. -/
def qualityStep (variationImage : ImageResult) (qc : Dict) (improved : ImageResult) :
    ImageResult × Bool :=
  if pyTruthy ((dictLookup "regeneration_needed" qc).getD (.bool false)) then
    let chosen :=
      if truthyOptStr improved.local_path && !truthyOptStr improved.error then improved
      else variationImage
    ({ chosen with quality_check := some qc }, true)
  else ({ variationImage with quality_check := some qc }, false)

/-- A `Variation` record (the fields of the step-6 package that the
verified properties read). -/
structure Variation where
  id : String
  generated_image : ImageResult
  modified_components : String
  react_code : String

/-- The per-pattern inputs of one `_create_variation` run: the outcomes of
the two model calls of steps 1–2, the screenshot lookup and dimensions, the
image-edit call, the quality-check call (whose initial file `open` is
outside any handler and can raise), and the regeneration inputs. -/
structure PatternRun where
  modifyResult : Except String String
  reactResult : Except String String
  screenshotPath : Option String
  width : Nat
  height : Nat
  editResult : String → Except String String
  ts : String
  textOnly : ImageResult
  qcResult : Except String Dict
  regenScreenshotPath : Option String
  regenEdit : String → Except String (Option String)
  regenTs : String

/-- Step 5 of `_create_variation` including its guard: the quality check
runs only when the image has a path and no error; its result can raise (the
initial file `open` of `_quality_check_image` is outside any handler), and
so can the regeneration call `regen` — its pre-`try` feedback construction
is unprotected — both propagating out of `_create_variation`.  `regen` is
invoked on the quality report only when the report requests regeneration;
when it does not, the report is attached to the first image, which is the
`improved`-independent branch of `qualityStep` (`C5_no_regen_keeps_image`). -/
def createVariationFinal (img : ImageResult) (qcResult : Except String Dict)
    (regen : Dict → Except String ImageResult) : Except String ImageResult :=
  if truthyOptStr img.local_path && !truthyOptStr img.error then
    match qcResult with
    | .error e => .error e
    | .ok qc =>
      if pyTruthy ((dictLookup "regeneration_needed" qc).getD (.bool false)) then
        match regen qc with
        | .error e => .error e
        | .ok improved => .ok (qualityStep img qc improved).1
      else .ok { img with quality_check := some qc }
  else .ok img

/-- `ABTestGenerator._create_variation` for one pattern id. -/
def createVariation (pid : String) (inp : PatternRun) : Except String Variation := do
  let mods ← inp.modifyResult
  let code ← inp.reactResult
  let finalImg ← createVariationFinal
    (generateVariationImageWithScreenshot inp.screenshotPath inp.width
      inp.height inp.editResult inp.ts inp.textOnly)
    inp.qcResult
    (fun qc => regenerateWithFeedback qc inp.regenScreenshotPath
      inp.regenEdit inp.regenTs)
  pure { id := pid, generated_image := finalImg,
         modified_components := mods, react_code := code }

/-- The four pattern ids of `AB_TEST_PATTERNS`, in source order. -/
def patternIds : List String := ["1", "2", "3", "4"]

/-- `ABTestGenerator._generate_all_variations`: one `_create_variation` per
pattern; a pattern that raises is logged and skipped, the rest are keyed
`variation_(id)` in the result dict. -/
def generateAllVariations (run : String → Except String Variation) :
    List (String × Variation) :=
  patternIds.foldl
    (fun acc pid =>
      match run pid with
      | .ok v => acc ++ [("variation_" ++ pid, v)]
      | .error _ => acc)
    []

/-! ## `stylizer.py` -/

/-- One entry of `STYLE_PRESETS`. -/
structure StyleSpec where
  name : String
  prompt : String

/-- One entry of the `stylized_results` list of `_apply_styles_to_image`:
either the success dict returned by `_stylize_single_image` or the
`{style_name, error}` failure dict. -/
structure StyleOutcome where
  style_name : String
  output_path : Option String := none
  error : Option String := none

/-- The failure record appended when a style application raises. -/
def styleErrorOutcome (st : StyleSpec) (e : String) : StyleOutcome :=
  { style_name := st.name, error := some e }

/-- `VariationStylizer._apply_styles_to_image` with explicit fuel: process
the styles in batches of `batch_size = 5`, turn each raised exception into
a failure record, and sleep between batches (`if i + batch_size <
len(styles)`).  Returns the outcome list and the number of sleeps. -/
def applyStylesFuel (run : StyleSpec → Except String StyleOutcome) :
    Nat → List StyleSpec → List StyleOutcome × Nat
  | 0, _ => ([], 0)
  | _, [] => ([], 0)
  | fuel + 1, s :: rest =>
    let batch := (s :: rest).take 5
    let remaining := (s :: rest).drop 5
    let batchResults := batch.map (fun st =>
      match run st with
      | .ok r => r
      | .error e => styleErrorOutcome st e)
    let tail := applyStylesFuel run fuel remaining
    (batchResults ++ tail.1, (if remaining.isEmpty then 0 else 1) + tail.2)

/-- `VariationStylizer._apply_styles_to_image` (each batch iteration
consumes at least one style, so `styles.length` is always enough fuel). -/
def applyStylesToImage (run : StyleSpec → Except String StyleOutcome)
    (styles : List StyleSpec) : List StyleOutcome × Nat :=
  applyStylesFuel run styles.length styles

/-! ## Decomposition of the merge loop into per-chunk update lists -/

/-- The assignments a list of guarded category actions performs, in order
(or the first raised error). -/
def actionsUpdates : List (Bool × String × Except String JsonVal) →
    Except String (List (String × JsonVal))
  | [] => .ok []
  | a :: rest =>
    if a.1 then
      match a.2.2 with
      | .error e => .error e
      | .ok v => (actionsUpdates rest).map (fun us => (a.2.1, v) :: us)
    else actionsUpdates rest

/-- The assignments one chunk performs. -/
def chunkUpdates (c : JsonVal) : Except String (List (String × JsonVal)) :=
  match c with
  | .obj kvs => actionsUpdates (categoryActions kvs)
  | _ => .error "TypeError: chunk is not a dict"

/-- The assignments a chunk list performs, in order. -/
def chunksUpdates : List JsonVal → Except String (List (String × JsonVal))
  | [] => .ok []
  | c :: rest =>
    match chunkUpdates c with
    | .error e => .error e
    | .ok u => (chunksUpdates rest).map (fun r => u ++ r)

/-! ## Key-set facts about the merge -/

/-- The six category keys the merge loop can assign, in source order. -/
def mergeCategoryKeys : List String :=
  ["Typography", "Color & Contrast", "Layout & Grid System",
   "Buttons & Calls-to-Action", "Form & Input Styling",
   "Cards / Panels / Containers"]

/-- A `json.loads` oracle agreeing with Python's parser on the single
literal the C1 counterexample feeds it. -/
def loadsA : List Char → Option JsonVal := fun s =>
  if s = ("\x7b\"a\": 1\x7d").toList then some (.obj [("a", .num 1)]) else none

/-- A model response with zero fenced blocks whose bracket span parses. -/
def textA : List Char := ("\x7b\"a\": 1\x7d").toList

/-- The chunk of the C1/C7 witness response. -/
def chunkB : JsonVal := .obj [("formElements", .num 1)]

/-- A model response with one fenced block. -/
def textB : List Char := ("```json\n\x7b\"formElements\": 1\x7d\n```").toList

/-- A `json.loads` oracle agreeing with Python's parser on the single
literal the C1 witness feeds it. -/
def loadsB : List Char → Option JsonVal := fun s =>
  if s = ("\x7b\"formElements\": 1\x7d").toList then some chunkB else none

/-- The merged result of the C1 witness run. -/
def mergedB : Dict := fillMissing schemaKeys [("Form & Input Styling", JsonVal.num 1)]

/-- The analyzer state after the C1 witness run. -/
def stB : AnalyzerState := ⟨[chunkB], some (.obj mergedB)⟩

/-- The second chunk of the C7 witness. -/
def chunkC : JsonVal := .obj [("cardDesigns", .str "flat")]

/-- A per-pattern input set where every stage succeeds. -/
def runOkExample : PatternRun :=
  { modifyResult := .ok "modified structure",
    reactResult := .ok "react code",
    screenshotPath := some "outputs/screenshots/segment_1_top.png",
    width := 1920, height := 1080,
    editResult := fun _ => .ok "b64 image",
    ts := "t0",
    textOnly := {},
    qcResult := .ok noContentReport,
    regenScreenshotPath := some "outputs/screenshots/segment_1_top.png",
    regenEdit := fun _ => .ok (some "b64 image"),
    regenTs := "t1" }

/-- The same inputs with the image-edit call forced to fail. -/
def runFailExample : PatternRun :=
  { runOkExample with editResult := fun _ => .error "edit failed" }

/-- Inputs for the C4 witness: pattern "3"'s image call fails, the rest
succeed. -/
def c4Inputs : String → PatternRun := fun pid =>
  if pid = "3" then runFailExample else runOkExample

/-! ## Lemmas and verified claims -/

theorem dictMem_iff {k : String} {d : Dict} : dictMem k d = true ↔ k ∈ dictKeys d := by
  induction d with
  | nil => simp [dictMem, dictKeys]
  | cons p rest ih =>
    obtain ⟨k1, v1⟩ := p
    simp only [dictMem, List.any_cons, Bool.or_eq_true, decide_eq_true_eq, dictKeys,
      List.map_cons, List.mem_cons]
    constructor
    · rintro (h | h)
      · exact Or.inl h.symm
      · exact Or.inr (ih.mp h)
    · rintro (h | h)
      · exact Or.inl h.symm
      · exact Or.inr (ih.mpr h)

theorem dictKeys_map_update {d : Dict} {k : String} {v : JsonVal} :
    dictKeys (d.map (fun p => if p.1 = k then (k, v) else p)) = dictKeys d := by
  induction d with
  | nil => rfl
  | cons p rest ih =>
    obtain ⟨k1, v1⟩ := p
    by_cases h : k1 = k
    · subst h
      simpa [dictKeys] using ih
    · simp only [List.map_cons, dictKeys] at *
      rw [show (if (k1, v1).1 = k then (k, v) else (k1, v1)) = (k1, v1) from if_neg h]
      simp [ih]

theorem dictKeys_insert {d : Dict} {k : String} {v : JsonVal} :
    dictKeys (dictInsert d k v) =
      if k ∈ dictKeys d then dictKeys d else dictKeys d ++ [k] := by
  unfold dictInsert
  by_cases h : dictMem k d = true
  · rw [if_pos h, if_pos (dictMem_iff.mp h), dictKeys_map_update]
  · rw [if_neg h, if_neg (fun hm => h (dictMem_iff.mpr hm))]
    simp [dictKeys]

theorem dictLookup_eq_none {k : String} {d : Dict} :
    dictLookup k d = none ↔ k ∉ dictKeys d := by
  induction d with
  | nil => simp [dictLookup, dictKeys]
  | cons p rest ih =>
    simp only [dictLookup, dictKeys, List.map_cons, List.mem_cons]
    by_cases hp : p.1 = k
    · simp [hp]
    · simp only [if_neg hp, ih]
      constructor
      · intro h; exact fun hc => hc.elim (fun he => hp he.symm) h
      · intro h; exact fun hc => h (Or.inr hc)

theorem dictLookup_append {k : String} {d₁ d₂ : Dict} :
    dictLookup k (d₁ ++ d₂) =
      match dictLookup k d₁ with
      | some w => some w
      | none => dictLookup k d₂ := by
  induction d₁ with
  | nil => simp [dictLookup]
  | cons p rest ih =>
    simp only [List.cons_append, dictLookup]
    by_cases hp : p.1 = k
    · simp [hp]
    · simp [hp, ih]

theorem dictLookup_map_update_self {d : Dict} {k : String} {v : JsonVal}
    (hk : k ∈ dictKeys d) :
    dictLookup k (d.map (fun p => if p.1 = k then (k, v) else p)) = some v := by
  induction d with
  | nil => simp [dictKeys] at hk
  | cons p rest ih =>
    obtain ⟨k1, v1⟩ := p
    by_cases hp : k1 = k
    · subst hp
      simp only [List.map_cons]
      simp only [if_true]
      simp [dictLookup]
    · have hk' : k ∈ dictKeys rest := by
        rcases (by simpa [dictKeys] using hk : k = k1 ∨ k ∈ dictKeys rest) with h | h
        · exact absurd h.symm hp
        · exact h
      simp only [List.map_cons]
      rw [show (if (k1, v1).1 = k then (k, v) else (k1, v1)) = (k1, v1) from if_neg hp]
      simpa [dictLookup, hp] using ih hk'

theorem dictLookup_map_update_other {d : Dict} {k k' : String} {v : JsonVal}
    (hne : k' ≠ k) :
    dictLookup k' (d.map (fun p => if p.1 = k then (k, v) else p)) =
      dictLookup k' d := by
  induction d with
  | nil => rfl
  | cons p rest ih =>
    obtain ⟨k1, v1⟩ := p
    by_cases hp : k1 = k
    · subst hp
      have h2 : ¬ (k1 = k') := fun hc => hne hc.symm
      simp only [List.map_cons]
      simp only [if_true]
      simp only [dictLookup, if_neg h2, ih]
    · simp only [List.map_cons]
      rw [show (if (k1, v1).1 = k then (k, v) else (k1, v1)) = (k1, v1) from if_neg hp]
      by_cases hq : k1 = k'
      · simp [dictLookup, hq]
      · simp [dictLookup, hq, ih]

theorem dictLookup_insert {d : Dict} {k k' : String} {v : JsonVal} :
    dictLookup k' (dictInsert d k v) =
      if k' = k then some v else dictLookup k' d := by
  unfold dictInsert
  by_cases hm : dictMem k d = true
  · rw [if_pos hm]
    by_cases he : k' = k
    · subst he
      rw [if_pos rfl, dictLookup_map_update_self (dictMem_iff.mp hm)]
    · rw [if_neg he, dictLookup_map_update_other he]
  · rw [if_neg hm, dictLookup_append]
    have hnone : dictLookup k d = none :=
      dictLookup_eq_none.mpr (fun hkk => hm (dictMem_iff.mpr hkk))
    by_cases he : k' = k
    · subst he
      rw [hnone, if_pos rfl]
      simp [dictLookup]
    · rw [if_neg he]
      have h3 : ¬ (k = k') := fun hc => he hc.symm
      cases hcase : dictLookup k' d with
      | some w => simp
      | none => simp [dictLookup, h3]

theorem applyUpdates_nil {d : Dict} : applyUpdates d [] = d := rfl

theorem applyUpdates_cons {d : Dict} {u : String × JsonVal} {us : List (String × JsonVal)} :
    applyUpdates d (u :: us) = applyUpdates (dictInsert d u.1 u.2) us := rfl

theorem applyUpdates_append {d : Dict} {us vs : List (String × JsonVal)} :
    applyUpdates d (us ++ vs) = applyUpdates (applyUpdates d us) vs := by
  simp [applyUpdates, List.foldl_append]

theorem dictKeys_applyUpdates {us : List (String × JsonVal)} :
    ∀ {d : Dict}, dictKeys (applyUpdates d us) = dictKeys d ++ newKeys (dictKeys d) (us.map Prod.fst) := by
  induction us with
  | nil => intro d; simp [applyUpdates, newKeys]
  | cons u rest ih =>
    intro d
    obtain ⟨k, v⟩ := u
    rw [applyUpdates_cons, ih, dictKeys_insert]
    by_cases h : k ∈ dictKeys d
    · simp only [List.map_cons, newKeys, if_pos h]
    · simp only [if_neg h, List.map_cons, newKeys, if_neg h, List.append_assoc,
        List.singleton_append]

theorem lastAssign_append {k : String} {us vs : List (String × JsonVal)} :
    lastAssign k (us ++ vs) =
      match lastAssign k vs with
      | some w => some w
      | none => lastAssign k us := by
  induction us with
  | nil =>
    simp only [List.nil_append]
    cases lastAssign k vs <;> simp [lastAssign]
  | cons u rest ih =>
    obtain ⟨k', v⟩ := u
    simp only [List.cons_append, lastAssign, List.append_eq]
    rw [ih]
    cases h1 : lastAssign k vs <;> cases h2 : lastAssign k rest <;> simp

theorem dictLookup_applyUpdates {us : List (String × JsonVal)} {k : String} :
    ∀ {d : Dict}, dictLookup k (applyUpdates d us) =
      match lastAssign k us with
      | some w => some w
      | none => dictLookup k d := by
  induction us with
  | nil => intro d; simp [applyUpdates, lastAssign]
  | cons u rest ih =>
    intro d
    obtain ⟨k', v⟩ := u
    rw [applyUpdates_cons, ih]
    simp only [lastAssign, dictLookup_insert]
    cases lastAssign k rest with
    | some w => simp
    | none =>
      by_cases he : k' = k
      · subst he
        simp
      · have hne : ¬ (k = k') := fun hc => he hc.symm
        simp [he, hne]

theorem mem_newKeys_of_mem {l : List String} {k : String} :
    ∀ {ks : List String}, k ∈ l → k ∈ ks ∨ k ∈ newKeys ks l := by
  induction l with
  | nil => intro ks h; cases h
  | cons a rest ih =>
    intro ks h
    rcases List.mem_cons.mp h with h1 | h2
    · subst h1
      by_cases ha : k ∈ ks
      · exact Or.inl ha
      · simp [newKeys, ha]
    · by_cases ha : a ∈ ks
      · simpa [newKeys, ha] using ih h2
      · rcases @ih (ks ++ [a]) h2 with h3 | h3
        · rcases List.mem_append.mp h3 with h4 | h4
          · exact Or.inl h4
          · simp only [List.mem_singleton] at h4
            subst h4
            simp [newKeys, ha]
        · simp [newKeys, ha, h3]

theorem newKeys_eq_nil {l : List String} :
    ∀ {ks : List String}, (∀ k ∈ l, k ∈ ks) → newKeys ks l = [] := by
  induction l with
  | nil => intro ks _; rfl
  | cons a rest ih =>
    intro ks h
    have ha : a ∈ ks := h a (List.mem_cons_self a rest)
    simp only [newKeys, if_pos ha]
    exact ih (fun k hk => h k (List.mem_cons_of_mem a hk))

theorem newKeys_mono {l : List String} :
    ∀ {ks ks' : List String}, (∀ k ∈ ks, k ∈ ks') → (∀ k ∈ ks', k ∈ ks) →
      newKeys ks l = newKeys ks' l := by
  induction l with
  | nil => intro ks ks' _ _; rfl
  | cons a rest ih =>
    intro ks ks' h1 h2
    by_cases ha : a ∈ ks
    · simp only [newKeys, if_pos ha, if_pos (h1 a ha)]
      exact ih h1 h2
    · have ha' : a ∉ ks' := fun hc => ha (h2 a hc)
      simp only [newKeys, if_neg ha, if_neg ha', List.cons.injEq, true_and]
      exact ih (fun k hk => by
          rcases List.mem_append.mp hk with h | h
          · exact List.mem_append.mpr (Or.inl (h1 k h))
          · exact List.mem_append.mpr (Or.inr h))
        (fun k hk => by
          rcases List.mem_append.mp hk with h | h
          · exact List.mem_append.mpr (Or.inl (h2 k h))
          · exact List.mem_append.mpr (Or.inr h))

theorem newKeys_append {l₁ l₂ : List String} :
    ∀ {ks : List String},
      newKeys ks (l₁ ++ l₂) = newKeys ks l₁ ++ newKeys (ks ++ newKeys ks l₁) l₂ := by
  induction l₁ with
  | nil => intro ks; simp [newKeys]
  | cons a rest ih =>
    intro ks
    by_cases ha : a ∈ ks
    · simp only [List.cons_append, newKeys, if_pos ha, List.append_eq]
      exact ih
    · simp only [List.cons_append, newKeys, if_neg ha, List.append_eq, List.cons.injEq, true_and]
      rw [ih]
      simp [List.append_assoc]

theorem newKeys_subset {l : List String} {k : String} :
    ∀ {ks : List String}, k ∈ newKeys ks l → k ∈ l := by
  induction l with
  | nil => intro ks h; cases h
  | cons a rest ih =>
    intro ks h
    by_cases ha : a ∈ ks
    · simp only [newKeys, if_pos ha] at h
      exact List.mem_cons_of_mem a (ih h)
    · simp only [newKeys, if_neg ha, List.mem_cons] at h
      rcases h with h | h
      · exact List.mem_cons.mpr (Or.inl h)
      · exact List.mem_cons_of_mem a (ih h)

theorem newKeys_not_mem_base {l : List String} {k : String} :
    ∀ {ks : List String}, k ∈ newKeys ks l → k ∉ ks := by
  induction l with
  | nil => intro ks h; cases h
  | cons a rest ih =>
    intro ks h
    by_cases ha : a ∈ ks
    · simp only [newKeys, if_pos ha] at h
      exact ih h
    · simp only [newKeys, if_neg ha, List.mem_cons] at h
      rcases h with h | h
      · subst h; exact ha
      · intro hc
        exact ih h (List.mem_append.mpr (Or.inl hc))

theorem newKeys_nodup {l : List String} :
    ∀ {ks : List String}, (newKeys ks l).Nodup := by
  induction l with
  | nil => intro ks; simp [newKeys]
  | cons a rest ih =>
    intro ks
    by_cases ha : a ∈ ks
    · simp only [newKeys, if_pos ha]; exact ih
    · simp only [newKeys, if_neg ha, List.nodup_cons]
      refine ⟨fun hc => ?_, ih⟩
      exact newKeys_not_mem_base hc (List.mem_append.mpr (Or.inr (List.mem_singleton.mpr rfl)))

theorem dict_ext {d₁ : Dict} :
    ∀ {d₂ : Dict}, (dictKeys d₁).Nodup → dictKeys d₁ = dictKeys d₂ →
      (∀ k, dictLookup k d₁ = dictLookup k d₂) → d₁ = d₂ := by
  induction d₁ with
  | nil =>
    intro d₂ _ hk _
    cases d₂ with
    | nil => rfl
    | cons q _ => simp [dictKeys] at hk
  | cons p rest ih =>
    intro d₂ hnd hk hl
    obtain ⟨k1, v1⟩ := p
    cases d₂ with
    | nil => simp [dictKeys] at hk
    | cons q rest₂ =>
      obtain ⟨k2, v2⟩ := q
      simp only [dictKeys, List.map_cons, List.cons.injEq] at hk
      obtain ⟨hkk, hkt⟩ := hk
      subst hkk
      have hv : v1 = v2 := by
        have := hl k1
        simpa [dictLookup] using this
      subst hv
      simp only [dictKeys, List.map_cons, List.nodup_cons] at hnd
      refine congrArg (List.cons (k1, v1)) (ih hnd.2 hkt (fun k => ?_))
      by_cases he : k = k1
      · subst he
        have h1 : dictLookup k rest = none :=
          dictLookup_eq_none.mpr (by simpa [dictKeys] using hnd.1)
        have h2 : dictLookup k rest₂ = none :=
          dictLookup_eq_none.mpr (by
            rw [show dictKeys rest₂ = dictKeys rest from hkt.symm]
            simpa [dictKeys] using hnd.1)
        rw [h1, h2]
      · have := hl k
        have hne : ¬ (k1 = k) := fun hc => he hc.symm
        simpa [dictLookup, if_neg hne] using this

theorem dictKeys_applyUpdates_nodup {d : Dict} {us : List (String × JsonVal)}
    (h : (dictKeys d).Nodup) : (dictKeys (applyUpdates d us)).Nodup := by
  rw [dictKeys_applyUpdates]
  refine List.Nodup.append h newKeys_nodup ?_
  intro k hk1 hk2
  exact newKeys_not_mem_base hk2 hk1

theorem newKeys_self_append {ks : List String} {a : List String} :
    newKeys (ks ++ newKeys ks a) a = [] :=
  newKeys_eq_nil (fun _ hk =>
    List.mem_append.mpr ((mem_newKeys_of_mem hk).imp id id))

theorem newKeys_dup {a b : List String} {ks : List String} :
    newKeys ks (a ++ a ++ b ++ b) = newKeys ks (a ++ b) := by
  have h1 : newKeys ks (a ++ a) = newKeys ks a := by
    rw [newKeys_append, newKeys_self_append, List.append_nil]
  have h2 : newKeys ks (a ++ a ++ b) = newKeys ks (a ++ b) := by
    rw [newKeys_append, h1, newKeys_append]
  rw [newKeys_append, h2]
  have h3 : newKeys (ks ++ newKeys ks (a ++ b)) b = [] :=
    newKeys_eq_nil (fun k hk => by
      have : k ∈ a ++ b := List.mem_append.mpr (Or.inr hk)
      exact List.mem_append.mpr ((mem_newKeys_of_mem this).imp id id))
  rw [h3, List.append_nil]

theorem lastAssign_dup {u v : List (String × JsonVal)} {k : String} :
    lastAssign k (u ++ u ++ v ++ v) = lastAssign k (u ++ v) := by
  simp only [lastAssign_append]
  cases lastAssign k v <;> cases lastAssign k u <;> simp

theorem applyUpdates_dup {u v : List (String × JsonVal)} :
    applyUpdates [] (u ++ u ++ v ++ v) = applyUpdates [] (u ++ v) := by
  refine dict_ext (dictKeys_applyUpdates_nodup (by simp [dictKeys])) ?_ ?_
  · rw [dictKeys_applyUpdates, dictKeys_applyUpdates]
    simp only [List.map_append]
    rw [show dictKeys ([] : Dict) = [] from rfl]
    exact congrArg _ newKeys_dup
  · intro k
    rw [dictLookup_applyUpdates, dictLookup_applyUpdates, lastAssign_dup]

theorem startsWithChars_length {pat l : List Char} (h : startsWithChars pat l = true) :
    pat.length ≤ l.length := by
  induction pat generalizing l with
  | nil => simp
  | cons p ps ih =>
    cases l with
    | nil => simp [startsWithChars] at h
    | cons c cs =>
      simp only [startsWithChars, Bool.and_eq_true] at h
      simpa [List.length_cons] using ih h.2

theorem findSub_bound {pat l : List Char} {i : Nat} (h : findSub pat l = some i) :
    i + pat.length ≤ l.length := by
  induction l generalizing i with
  | nil =>
    simp only [findSub] at h
    by_cases hp : pat.isEmpty
    · rw [if_pos hp] at h
      cases h
      simp [List.isEmpty_iff.mp hp]
    · rw [if_neg hp] at h
      cases h
  | cons c cs ih =>
    simp only [findSub] at h
    by_cases hs : startsWithChars pat (c :: cs) = true
    · rw [if_pos hs] at h
      cases h
      simpa using startsWithChars_length hs
    · rw [if_neg hs] at h
      cases hfind : findSub pat cs with
      | none => rw [hfind] at h; cases h
      | some j =>
        rw [hfind] at h
        cases h
        have := ih hfind
        simp only [List.length_cons]
        omega

theorem extractJsonBlocksFuel_step_lt (j : Nat) {text : List Char} {i : Nat}
    (hi : findSub fenceMarker text = some i) :
    ((text.drop (i + 7)).drop (j + 3)).length < text.length := by
  have hb := findSub_bound hi
  have h7 : fenceMarker.length = 7 := rfl
  rw [h7] at hb
  simp only [List.length_drop]
  omega

theorem extractJsonBlocksFuel_stable {f₁ : Nat} :
    ∀ {f₂ : Nat} {text : List Char}, text.length ≤ f₁ → text.length ≤ f₂ →
      extractJsonBlocksFuel f₁ text = extractJsonBlocksFuel f₂ text := by
  induction f₁ with
  | zero =>
    intro f₂ text h1 _
    have : text = [] := List.length_eq_zero.mp (Nat.le_zero.mp h1)
    subst this
    cases f₂ with
    | zero => rfl
    | succ g => simp [extractJsonBlocksFuel, findSub, fenceMarker]
  | succ f ih =>
    intro f₂ text h1 h2
    cases hfind : findSub fenceMarker text with
    | none =>
      cases f₂ with
      | zero =>
        have : text = [] := List.length_eq_zero.mp (Nat.le_zero.mp h2)
        subst this
        rfl
      | succ g => simp [extractJsonBlocksFuel, hfind]
    | some i =>
      have hb := findSub_bound hfind
      have h7 : fenceMarker.length = 7 := rfl
      rw [h7] at hb
      cases f₂ with
      | zero =>
        exfalso
        have : text.length = 0 := Nat.le_zero.mp h2
        omega
      | succ g =>
        simp only [extractJsonBlocksFuel, hfind]
        cases hclose : findSub fenceClose (text.drop (i + 7)) with
        | none => rfl
        | some j =>
          have hlt := extractJsonBlocksFuel_step_lt j hfind
          refine congrArg _ (ih ?_ ?_)
          · omega
          · omega

theorem foldl_guardedSet_error {actions : List (Bool × String × Except String JsonVal)}
    {e : String} : actions.foldl guardedSet (.error e) = .error e := by
  induction actions with
  | nil => rfl
  | cons a rest ih =>
    rw [List.foldl_cons, show guardedSet (.error e) a = .error e from rfl]
    exact ih

theorem foldl_guardedSet_eq {actions : List (Bool × String × Except String JsonVal)} :
    ∀ {d : Dict}, actions.foldl guardedSet (.ok d) =
      (actionsUpdates actions).map (fun us => applyUpdates d us) := by
  induction actions with
  | nil => intro d; rfl
  | cons a rest ih =>
    intro d
    obtain ⟨cond, k, mv⟩ := a
    cases cond with
    | false =>
      have h1 : guardedSet (.ok d) (false, k, mv) = .ok d := rfl
      rw [List.foldl_cons, h1, ih]
      simp [actionsUpdates]
    | true =>
      cases mv with
      | error e =>
        have h1 : guardedSet (.ok d) (true, k, .error e) = .error e := rfl
        rw [List.foldl_cons, h1, foldl_guardedSet_error]
        simp [actionsUpdates, Except.map]
      | ok v =>
        have h1 : guardedSet (.ok d) (true, k, .ok v) = .ok (dictInsert d k v) := rfl
        rw [List.foldl_cons, h1, ih]
        simp only [actionsUpdates, if_true]
        cases actionsUpdates rest with
        | error e => rfl
        | ok us => simp [applyUpdates_cons, Except.map]

theorem mergeChunkInto_eq {d : Dict} {c : JsonVal} :
    mergeChunkInto d c = (chunkUpdates c).map (fun us => applyUpdates d us) := by
  cases c with
  | obj kvs => exact foldl_guardedSet_eq
  | str s => rfl
  | num n => rfl
  | bool b => rfl
  | null => rfl
  | arr l => rfl

theorem mergeLoop_eq {l : List JsonVal} :
    ∀ {d : Dict}, mergeLoop d l = (chunksUpdates l).map (fun us => applyUpdates d us) := by
  induction l with
  | nil => intro d; rfl
  | cons c rest ih =>
    intro d
    rw [show mergeLoop d (c :: rest) =
      (match mergeChunkInto d c with
       | .error e => .error e
       | .ok d' => mergeLoop d' rest) from rfl]
    rw [mergeChunkInto_eq]
    cases hcu : chunkUpdates c with
    | error e => simp [chunksUpdates, hcu, Except.map]
    | ok u =>
      simp only [Except.map, chunksUpdates, hcu]
      rw [ih]
      cases hrest : chunksUpdates rest with
      | error e => simp [Except.map]
      | ok r => simp [Except.map, applyUpdates_append]

theorem chunksUpdates_append {l₁ l₂ : List JsonVal} :
    chunksUpdates (l₁ ++ l₂) =
      match chunksUpdates l₁ with
      | .error e => .error e
      | .ok u => (chunksUpdates l₂).map (fun r => u ++ r) := by
  induction l₁ with
  | nil =>
    simp only [List.nil_append, chunksUpdates]
    cases chunksUpdates l₂ <;> simp [Except.map]
  | cons c rest ih =>
    simp only [List.cons_append, chunksUpdates, List.append_eq]
    cases hcu : chunkUpdates c with
    | error e => rfl
    | ok u =>
      rw [ih]
      cases hrest : chunksUpdates rest with
      | error e => rfl
      | ok r =>
        cases h2 : chunksUpdates l₂ with
        | error e => rfl
        | ok s => simp [Except.map, List.append_assoc]

theorem mergeLoop_dup {A C : List JsonVal} :
    mergeLoop [] (A ++ A ++ C ++ C) = mergeLoop [] (A ++ C) := by
  rw [mergeLoop_eq, mergeLoop_eq]
  simp only [chunksUpdates_append]
  cases hA : chunksUpdates A with
  | error e => simp [Except.map]
  | ok u =>
    cases hC : chunksUpdates C with
    | error e => simp [Except.map]
    | ok v =>
      simp only [Except.map]
      rw [applyUpdates_dup]

theorem categoryActions_keys {kvs : Dict} :
    (categoryActions kvs).map (fun a => a.2.1) = mergeCategoryKeys := rfl

theorem mergeCategoryKeys_subset_schema {k : String} (h : k ∈ mergeCategoryKeys) :
    k ∈ schemaKeys := by
  fin_cases h <;> simp [schemaKeys]

theorem actionsUpdates_keys {actions : List (Bool × String × Except String JsonVal)}
    {us : List (String × JsonVal)} (h : actionsUpdates actions = .ok us) :
    ∀ p ∈ us, p.1 ∈ actions.map (fun a => a.2.1) := by
  induction actions generalizing us with
  | nil =>
    cases h
    intro p hp
    cases hp
  | cons a rest ih =>
    intro p hp
    simp only [actionsUpdates] at h
    by_cases hc : a.1 = true
    · rw [if_pos hc] at h
      cases hv : a.2.2 with
      | error e => rw [hv] at h; cases h
      | ok v =>
        rw [hv] at h
        cases hrest : actionsUpdates rest with
        | error e => rw [hrest] at h; cases h
        | ok us' =>
          rw [hrest] at h
          cases h
          rcases List.mem_cons.mp hp with h1 | h1
          · subst h1
            simp
          · simp only [List.map_cons, List.mem_cons]
            exact Or.inr (ih hrest p h1)
    · rw [if_neg hc] at h
      simp only [List.map_cons, List.mem_cons]
      exact Or.inr (ih h p hp)

theorem chunksUpdates_keys {l : List JsonVal} {us : List (String × JsonVal)}
    (h : chunksUpdates l = .ok us) : ∀ p ∈ us, p.1 ∈ schemaKeys := by
  induction l generalizing us with
  | nil =>
    cases h
    intro p hp
    cases hp
  | cons c rest ih =>
    intro p hp
    simp only [chunksUpdates] at h
    cases hcu : chunkUpdates c with
    | error e => rw [hcu] at h; cases h
    | ok u =>
      rw [hcu] at h
      cases hrest : chunksUpdates rest with
      | error e => rw [hrest] at h; cases h
      | ok r =>
        rw [hrest] at h
        simp only [Except.map] at h
        cases h
        rcases List.mem_append.mp hp with h1 | h1
        · cases c with
          | obj kvs =>
            have := actionsUpdates_keys (by simpa [chunkUpdates] using hcu) p h1
            rw [categoryActions_keys] at this
            exact mergeCategoryKeys_subset_schema this
          | str s => simp [chunkUpdates] at hcu
          | num n => simp [chunkUpdates] at hcu
          | bool b => simp [chunkUpdates] at hcu
          | null => simp [chunkUpdates] at hcu
          | arr xs => simp [chunkUpdates] at hcu
        · exact ih hrest p h1

theorem mem_fillMissing {ks : List String} :
    ∀ {d : Dict} {k : String},
      k ∈ dictKeys (fillMissing ks d) ↔ k ∈ dictKeys d ∨ k ∈ ks := by
  induction ks with
  | nil =>
    intro d k
    simp [fillMissing]
  | cons a ks ih =>
    intro d k
    rw [show fillMissing (a :: ks) d =
      fillMissing ks (if dictMem a d then d else dictInsert d a (notAvailable a)) from rfl]
    by_cases hm : dictMem a d = true
    · rw [if_pos hm, ih]
      constructor
      · rintro (h | h)
        · exact Or.inl h
        · exact Or.inr (List.mem_cons_of_mem a h)
      · rintro (h | h)
        · exact Or.inl h
        · rcases List.mem_cons.mp h with h1 | h1
          · subst h1
            exact Or.inl (dictMem_iff.mp hm)
          · exact Or.inr h1
    · rw [if_neg hm, ih]
      have hkeys : dictKeys (dictInsert d a (notAvailable a)) = dictKeys d ++ [a] := by
        rw [dictKeys_insert, if_neg (fun hc => hm (dictMem_iff.mpr hc))]
      rw [hkeys]
      constructor
      · rintro (h | h)
        · rcases List.mem_append.mp h with h1 | h1
          · exact Or.inl h1
          · simp only [List.mem_singleton] at h1
            exact Or.inr (List.mem_cons.mpr (Or.inl h1))
        · exact Or.inr (List.mem_cons_of_mem a h)
      · rintro (h | h)
        · exact Or.inl (List.mem_append.mpr (Or.inl h))
        · rcases List.mem_cons.mp h with h1 | h1
          · subst h1
            exact Or.inl (List.mem_append.mpr (Or.inr (List.mem_singleton.mpr rfl)))
          · exact Or.inr h1

theorem nodup_fillMissing {ks : List String} :
    ∀ {d : Dict}, (dictKeys d).Nodup → (dictKeys (fillMissing ks d)).Nodup := by
  induction ks with
  | nil => intro d h; exact h
  | cons a ks ih =>
    intro d h
    rw [show fillMissing (a :: ks) d =
      fillMissing ks (if dictMem a d then d else dictInsert d a (notAvailable a)) from rfl]
    by_cases hm : dictMem a d = true
    · rw [if_pos hm]
      exact ih h
    · rw [if_neg hm]
      refine ih ?_
      rw [dictKeys_insert, if_neg (fun hc => hm (dictMem_iff.mpr hc))]
      refine List.Nodup.append h (List.nodup_singleton a) ?_
      intro x hx1 hx2
      simp only [List.mem_singleton] at hx2
      subst hx2
      exact hm (dictMem_iff.mpr hx1)

/-- Key-set shape of a successful `_merge_analysis_chunks` body: the merged
dict before filling has pairwise-distinct keys drawn from the schema. -/
theorem mergeLoop_keys {l : List JsonVal} {d : Dict}
    (h : mergeLoop [] l = .ok d) :
    (dictKeys d).Nodup ∧ ∀ k ∈ dictKeys d, k ∈ schemaKeys := by
  rw [mergeLoop_eq] at h
  cases hcu : chunksUpdates l with
  | error e => rw [hcu] at h; cases h
  | ok us =>
    rw [hcu] at h
    simp only [Except.map] at h
    cases h
    refine ⟨dictKeys_applyUpdates_nodup (by simp [dictKeys]), ?_⟩
    intro k hk
    rw [dictKeys_applyUpdates] at hk
    rcases List.mem_append.mp hk with h1 | h1
    · simp [dictKeys] at h1
    · have hmem : k ∈ us.map Prod.fst := newKeys_subset h1
      obtain ⟨p, hp, he⟩ := List.mem_map.mp hmem
      subst he
      exact chunksUpdates_keys hcu p hp

theorem lastAssign_eq_none_iff {k : String} {us : List (String × JsonVal)} :
    lastAssign k us = none ↔ k ∉ us.map Prod.fst := by
  induction us with
  | nil => simp [lastAssign]
  | cons u rest ih =>
    obtain ⟨k', v⟩ := u
    simp only [lastAssign, List.map_cons, List.mem_cons]
    cases h : lastAssign k rest with
    | some w =>
      simp only []
      constructor
      · intro hc; cases hc
      · intro hc
        exact absurd (ih.mpr (fun hm => hc (Or.inr hm))) (by simp [h])
    | none =>
      by_cases he : k' = k
      · simp [he]
      · simp only [if_neg he]
        constructor
        · intro _
          intro hc
          rcases hc with h1 | h1
          · exact he h1.symm
          · exact (ih.mp h) h1
        · intro _; trivial

theorem lastAssign_isSome_of_mem {k : String} {us : List (String × JsonVal)}
    (h : k ∈ us.map Prod.fst) : ∃ w, lastAssign k us = some w := by
  cases hc : lastAssign k us with
  | none => exact absurd (lastAssign_eq_none_iff.mp hc) (by simp [h])
  | some w => exact ⟨w, rfl⟩

theorem mergeAnalysisChunks_fst {st : AnalyzerState} {newChunks : List JsonVal} :
    (mergeAnalysisChunks st newChunks).1 =
      match mergeLoop [] (st.accumulated ++ newChunks) with
      | .error e => .error e
      | .ok d => .ok (.obj (fillMissing schemaKeys d)) := by
  simp only [mergeAnalysisChunks]
  cases mergeLoop [] (st.accumulated ++ newChunks) <;> rfl

theorem mergeAnalysisChunks_snd {st : AnalyzerState} {newChunks : List JsonVal} :
    (mergeAnalysisChunks st newChunks).2 =
      ⟨st.accumulated ++ (st.accumulated ++ newChunks), st.lastMerge⟩ := by
  simp only [mergeAnalysisChunks]
  cases mergeLoop [] (st.accumulated ++ newChunks) <;> rfl

theorem parseResponse_with_chunks {loads : List Char → Option JsonVal}
    {st : AnalyzerState} {text : List Char} {chunks : List JsonVal}
    (hc : collectChunks loads (extractJsonBlocks text) = .ok chunks)
    (hne : chunks ≠ []) :
    parseResponse loads st text =
      match mergeAnalysisChunks st chunks with
      | (.error e, st') => (.error ("Failed to parse response: " ++ e), st')
      | (.ok m, st') => (.ok m, ⟨st'.accumulated, some m⟩) := by
  have hemp : chunks.isEmpty = false := by
    cases chunks with
    | nil => exact absurd rfl hne
    | cons a l => rfl
  unfold parseResponse
  rw [hc]
  simp only [hemp]
  rfl

/-- Filling missing categories leaves every already-present key's value
untouched. -/
theorem fillMissing_lookup_mem {ks : List String} :
    ∀ {d : Dict} {k : String}, k ∈ dictKeys d →
      dictLookup k (fillMissing ks d) = dictLookup k d := by
  induction ks with
  | nil => intro d k _; rfl
  | cons a ks ih =>
    intro d k hk
    rw [show fillMissing (a :: ks) d =
      fillMissing ks (if dictMem a d then d else dictInsert d a (notAvailable a)) from rfl]
    by_cases hm : dictMem a d = true
    · rw [if_pos hm]
      exact ih hk
    · rw [if_neg hm]
      have hka : ¬ (k = a) := by
        intro hc
        subst hc
        exact hm (dictMem_iff.mpr hk)
      have h1 : k ∈ dictKeys (dictInsert d a (notAvailable a)) := by
        rw [dictKeys_insert, if_neg (fun hc => hm (dictMem_iff.mpr hc))]
        exact List.mem_append.mpr (Or.inl hk)
      rw [ih h1, dictLookup_insert, if_neg hka]

/-- Every schema key missing from the merged dict is filled with the
"not available" placeholder. -/
theorem fillMissing_lookup_missing {ks : List String} :
    ∀ {d : Dict} {k : String}, k ∉ dictKeys d → k ∈ ks →
      dictLookup k (fillMissing ks d) = some (notAvailable k) := by
  induction ks with
  | nil => intro d k _ hks; cases hks
  | cons a ks ih =>
    intro d k hk hks
    rw [show fillMissing (a :: ks) d =
      fillMissing ks (if dictMem a d then d else dictInsert d a (notAvailable a)) from rfl]
    by_cases hm : dictMem a d = true
    · rw [if_pos hm]
      have hka : ¬ (k = a) := by
        intro hc
        subst hc
        exact hk (dictMem_iff.mp hm)
      exact ih hk ((List.mem_cons.mp hks).resolve_left hka)
    · rw [if_neg hm]
      by_cases hka : k = a
      · have h1 : k ∈ dictKeys (dictInsert d a (notAvailable a)) := by
          rw [dictKeys_insert, if_neg (fun hc => hm (dictMem_iff.mpr hc))]
          exact List.mem_append.mpr (Or.inr (List.mem_singleton.mpr hka))
        rw [fillMissing_lookup_mem h1, dictLookup_insert, if_pos hka, hka]
      · have h2 : k ∉ dictKeys (dictInsert d a (notAvailable a)) := by
          rw [dictKeys_insert, if_neg (fun hc => hm (dictMem_iff.mpr hc))]
          intro hc
          rcases List.mem_append.mp hc with h3 | h3
          · exact hk h3
          · exact hka (List.mem_singleton.mp h3)
        exact ih h2 ((List.mem_cons.mp hks).resolve_left hka)

/-- With zero parsed chunks, `_parse_response` takes the bracket-span
fallback: the span from the first brace to the last is handed to
`json.loads` and its result — when it parses — is returned unchanged. -/
theorem parseResponse_fallback {loads : List Char → Option JsonVal}
    {st : AnalyzerState} {text : List Char}
    (hc : collectChunks loads (extractJsonBlocks text) = .ok []) :
    parseResponse loads st text =
      match bracketSpan text with
      | none => (.error "Failed to parse response: No JSON found in response", st)
      | some span =>
        match loads span with
        | none => (.error "Failed to parse response: JSONDecodeError", st)
        | some v => (.ok v, st) := by
  unfold parseResponse
  rw [hc]
  rfl

/-- C1 (amended): whenever the fenced-block scan of `_parse_response` yields
at least one parsed chunk (the merge path) and parsing succeeds, the
returned object's key set equals the canonical schema key set exactly — no
duplicate and no missing keys — every category not populated by the merged
chunks carries the "not available" placeholder, and the populated
categories keep their merged values.  When zero fenced blocks parse, the
bracket-span fallback returns the `json.loads` result of the span
unchanged, with no schema filling (so, as originally stated, the claim is
false on that path: see `C1_fallback_counterexample`). -/
theorem C1_merge_path_schema_complete
    (loads : List Char → Option JsonVal) (st : AnalyzerState) (text : List Char) :
    (∀ (chunks : List JsonVal) (v : JsonVal) (st' : AnalyzerState),
      collectChunks loads (extractJsonBlocks text) = .ok chunks →
      chunks ≠ [] →
      parseResponse loads st text = (.ok v, st') →
      ∃ (d m : Dict), mergeLoop [] (st.accumulated ++ chunks) = .ok d ∧
        v = .obj m ∧ m = fillMissing schemaKeys d ∧
        (dictKeys m).Nodup ∧
        (∀ k, k ∈ dictKeys m ↔ k ∈ schemaKeys) ∧
        (∀ k, k ∈ schemaKeys → k ∉ dictKeys d →
          dictLookup k m = some (notAvailable k)) ∧
        (∀ k, k ∈ dictKeys d → dictLookup k m = dictLookup k d)) ∧
    (∀ (span : List Char) (pv : JsonVal),
      collectChunks loads (extractJsonBlocks text) = .ok [] →
      bracketSpan text = some span →
      loads span = some pv →
      parseResponse loads st text = (.ok pv, st)) := by
  constructor
  · intro chunks v st' hc hne hp
    rw [parseResponse_with_chunks hc hne] at hp
    cases hm : mergeAnalysisChunks st chunks with
    | mk r s2 =>
      rw [hm] at hp
      cases r with
      | error e => simp at hp
      | ok m =>
        simp only [Prod.mk.injEq, Except.ok.injEq] at hp
        obtain ⟨hv, _⟩ := hp
        have h1 : (mergeAnalysisChunks st chunks).1 = .ok m := by rw [hm]
        rw [mergeAnalysisChunks_fst] at h1
        cases hml : mergeLoop [] (st.accumulated ++ chunks) with
        | error e => rw [hml] at h1; cases h1
        | ok d =>
          rw [hml] at h1
          simp only [Except.ok.injEq] at h1
          refine ⟨d, fillMissing schemaKeys d, rfl, by rw [← hv, ← h1], rfl,
            ?_, ?_, ?_, ?_⟩
          · exact nodup_fillMissing (mergeLoop_keys hml).1
          · intro k
            rw [mem_fillMissing]
            constructor
            · rintro (h | h)
              · exact (mergeLoop_keys hml).2 k h
              · exact h
            · intro h
              exact Or.inr h
          · intro k hk hnk
            exact fillMissing_lookup_missing hnk hk
          · intro k hk
            exact fillMissing_lookup_mem hk
  · intro span pv hc hspan hload
    rw [parseResponse_fallback hc]
    simp only [hspan, hload]

/-- C1 counterexample: on a response with zero fenced blocks,
`_parse_response` takes the bracket-span fallback and returns the parsed
object unchanged — the result misses the canonical category "Typography"
(and every other one), so its key set does not equal the canonical set. -/
theorem C1_fallback_counterexample :
    (parseResponse loadsA initState textA).1 = .ok (.obj [("a", JsonVal.num 1)]) ∧
    "Typography" ∈ schemaKeys ∧
    "Typography" ∉ dictKeys [("a", JsonVal.num 1)] := by
  refine ⟨rfl, by decide, by decide⟩

/-- Witness for `C1_merge_path_schema_complete`: the merge path at a
concrete one-block response (part 1) and the raw bracket-span fallback at a
concrete zero-block response (part 2). -/
theorem C1_merge_path_schema_complete_witness :
    (collectChunks loadsB (extractJsonBlocks textB) = .ok [chunkB] ∧
      [chunkB] ≠ [] ∧
      parseResponse loadsB initState textB = (.ok (.obj mergedB), stB)) ∧
    (∃ (d m : Dict), mergeLoop [] (initState.accumulated ++ [chunkB]) = .ok d ∧
      JsonVal.obj mergedB = .obj m ∧ m = fillMissing schemaKeys d ∧
      (dictKeys m).Nodup ∧
      (∀ k, k ∈ dictKeys m ↔ k ∈ schemaKeys) ∧
      (∀ k, k ∈ schemaKeys → k ∉ dictKeys d →
        dictLookup k m = some (notAvailable k)) ∧
      (∀ k, k ∈ dictKeys d → dictLookup k m = dictLookup k d)) ∧
    (collectChunks loadsA (extractJsonBlocks textA) = .ok [] ∧
      bracketSpan textA = some (("\x7b\"a\": 1\x7d").toList) ∧
      loadsA (("\x7b\"a\": 1\x7d").toList) = some (.obj [("a", JsonVal.num 1)]) ∧
      parseResponse loadsA initState textA =
        (.ok (.obj [("a", JsonVal.num 1)]), initState)) :=
  ⟨⟨rfl, by simp, rfl⟩,
   (C1_merge_path_schema_complete loadsB initState textB).1 [chunkB]
     (.obj mergedB) stB rfl (by simp) rfl,
   ⟨rfl, rfl, rfl,
    (C1_merge_path_schema_complete loadsA initState textA).2
      (("\x7b\"a\": 1\x7d").toList) (.obj [("a", JsonVal.num 1)]) rfl rfl rfl⟩⟩

/-- C2: in `analyze_screenshot`, if the selected analysis path raises and a
previous chunk merge on this engine instance succeeded
(`_last_successful_merge` is set), the call returns that last successful
merge; with no prior successful merge it raises
`Exception("Vision analysis failed: <cause>")`, reporting the underlying
cause.  The third part ties the state to the meaning "a previous merge
succeeded": a successful merge path in `_parse_response` stores its result
in `_last_successful_merge`. -/
theorem C2_error_recovery (st : AnalyzerState) (e : String) :
    (∀ m, st.lastMerge = some m → analyzeScreenshot st (.error e) = .ok m) ∧
    (st.lastMerge = none →
      analyzeScreenshot st (.error e) = .error ("Vision analysis failed: " ++ e)) ∧
    (∀ (loads : List Char → Option JsonVal) (text : List Char)
        (chunks : List JsonVal) (v : JsonVal) (st' : AnalyzerState),
      collectChunks loads (extractJsonBlocks text) = .ok chunks → chunks ≠ [] →
      parseResponse loads st text = (.ok v, st') → st'.lastMerge = some v) := by
  refine ⟨?_, ?_, ?_⟩
  · intro m hm
    simp [analyzeScreenshot, hm]
  · intro hm
    simp [analyzeScreenshot, hm]
  · intro loads text chunks v st' hc hne hp
    rw [parseResponse_with_chunks hc hne] at hp
    cases hm : mergeAnalysisChunks st chunks with
    | mk r s2 =>
      rw [hm] at hp
      cases r with
      | error e' => simp at hp
      | ok m =>
        simp only [Prod.mk.injEq, Except.ok.injEq] at hp
        obtain ⟨hv, hst⟩ := hp
        rw [← hst, hv]

/-- Witness for `C2_error_recovery`: recovery with a stored merge, fatal
error without one, and the state update of a successful merge path. -/
theorem C2_error_recovery_witness :
    (analyzeScreenshot ⟨[], some JsonVal.null⟩ (.error "model down") = .ok JsonVal.null ∧
     analyzeScreenshot initState (.error "model down") =
       .error ("Vision analysis failed: " ++ "model down")) ∧
    stB.lastMerge = some (.obj mergedB) :=
  ⟨⟨(C2_error_recovery ⟨[], some JsonVal.null⟩ "model down").1 JsonVal.null rfl,
    (C2_error_recovery initState "model down").2.1 rfl⟩,
   (C2_error_recovery initState "model down").2.2 loadsB textB [chunkB]
     (.obj mergedB) stB rfl (by simp) rfl⟩

/-- C7: merging is idempotent over the accumulated chunk history — calling
`_merge_analysis_chunks` a second time on the same engine instance with the
same chunk list returns a result identical to the first call's result (even
though the accumulator keeps growing); and per category the merged value is
the last chunk's contribution: any category key assigned by the final chunk
ends up with exactly that chunk's value, overwriting earlier chunks. -/
theorem C7_merge_idempotent_last_wins :
    (∀ (st : AnalyzerState) (chunks : List JsonVal),
      (mergeAnalysisChunks (mergeAnalysisChunks st chunks).2 chunks).1 =
        (mergeAnalysisChunks st chunks).1) ∧
    (∀ (pre : List JsonVal) (c : JsonVal) (dAll dLast : Dict),
      mergeLoop [] (pre ++ [c]) = .ok dAll → mergeChunkInto [] c = .ok dLast →
      ∀ k, dictMem k dLast = true → dictLookup k dAll = dictLookup k dLast) := by
  constructor
  · intro st chunks
    rw [mergeAnalysisChunks_snd, mergeAnalysisChunks_fst, mergeAnalysisChunks_fst]
    have hassoc :
        (AnalyzerState.mk (st.accumulated ++ (st.accumulated ++ chunks)) st.lastMerge).accumulated
          ++ chunks = st.accumulated ++ st.accumulated ++ chunks ++ chunks := by
      simp [List.append_assoc]
    rw [hassoc, mergeLoop_dup]
  · intro pre c dAll dLast hAll hLast k hk
    rw [mergeLoop_eq] at hAll
    rw [mergeChunkInto_eq] at hLast
    cases huc : chunkUpdates c with
    | error e => rw [huc] at hLast; cases hLast
    | ok uc =>
      rw [huc] at hLast
      simp only [Except.map, Except.ok.injEq] at hLast
      rw [chunksUpdates_append] at hAll
      cases hupre : chunksUpdates pre with
      | error e => rw [hupre] at hAll; cases hAll
      | ok upre =>
        rw [hupre] at hAll
        rw [show chunksUpdates [c] =
            match chunkUpdates c with
            | .error e => .error e
            | .ok u => (chunksUpdates []).map (fun r => u ++ r) from rfl, huc] at hAll
        simp only [chunksUpdates, Except.map, Except.ok.injEq] at hAll
        have hkm : k ∈ uc.map Prod.fst := by
          rw [← hLast] at hk
          have := dictMem_iff.mp hk
          rw [dictKeys_applyUpdates] at this
          rcases List.mem_append.mp this with h1 | h1
          · simp [dictKeys] at h1
          · exact newKeys_subset h1
        obtain ⟨w, hw⟩ := lastAssign_isSome_of_mem hkm
        rw [← hAll, ← hLast]
        rw [dictLookup_applyUpdates, dictLookup_applyUpdates]
        rw [lastAssign_append]
        rw [show lastAssign k (uc ++ []) = lastAssign k uc by rw [List.append_nil]]
        rw [hw]

/-- Witness for `C7_merge_idempotent_last_wins` at concrete chunk lists:
re-merging `[chunkB]` is idempotent, and the later chunk `chunkB` wins the
"Form & Input Styling" category over an earlier chunk that also sets it. -/
theorem C7_merge_idempotent_last_wins_witness :
    ((mergeAnalysisChunks (mergeAnalysisChunks initState [chunkB]).2 [chunkB]).1 =
      (mergeAnalysisChunks initState [chunkB]).1) ∧
    (mergeLoop [] ([chunkC] ++ [chunkB]) =
        .ok [("Cards / Panels / Containers", JsonVal.str "flat"),
             ("Form & Input Styling", JsonVal.num 1)] ∧
      mergeChunkInto [] chunkB = .ok [("Form & Input Styling", JsonVal.num 1)] ∧
      dictMem "Form & Input Styling" [("Form & Input Styling", JsonVal.num 1)] = true ∧
      dictLookup "Form & Input Styling"
          [("Cards / Panels / Containers", JsonVal.str "flat"),
           ("Form & Input Styling", JsonVal.num 1)] =
        dictLookup "Form & Input Styling" [("Form & Input Styling", JsonVal.num 1)]) :=
  ⟨C7_merge_idempotent_last_wins.1 initState [chunkB],
   ⟨rfl, rfl, rfl,
    C7_merge_idempotent_last_wins.2 [chunkC] chunkB
      [("Cards / Panels / Containers", JsonVal.str "flat"),
       ("Form & Input Styling", JsonVal.num 1)]
      [("Form & Input Styling", JsonVal.num 1)] rfl rfl
      "Form & Input Styling" rfl⟩⟩

theorem variationImagePath_ne_empty {ts : String} : variationImagePath ts ≠ "" := by
  intro h
  have h2 := congrArg String.data h
  rw [variationImagePath] at h2
  simp [String.data_append] at h2

theorem improvedImagePath_ne_empty {ts : String} : improvedImagePath ts ≠ "" := by
  intro h
  have h2 := congrArg String.data h
  rw [improvedImagePath] at h2
  simp [String.data_append] at h2

/-- Step 5 with the quality gate passed and the report produced. -/
theorem createVariationFinal_gate_ok {img : ImageResult} {qc : Dict}
    {R : Dict → Except String ImageResult}
    (hgate : (truthyOptStr img.local_path && !truthyOptStr img.error) = true) :
    createVariationFinal img (.ok qc) R =
      if pyTruthy ((dictLookup "regeneration_needed" qc).getD (.bool false)) then
        match R qc with
        | .error e => .error e
        | .ok improved => .ok (qualityStep img qc improved).1
      else .ok { img with quality_check := some qc } := by
  unfold createVariationFinal
  rw [if_pos hgate]

/-- Step 5 with the quality gate failed: the image is returned as is and
neither the quality check nor the regeneration runs. -/
theorem createVariationFinal_gate_skip {img : ImageResult}
    {qcResult : Except String Dict} {R : Dict → Except String ImageResult}
    (hgate : (truthyOptStr img.local_path && !truthyOptStr img.error) = false) :
    createVariationFinal img qcResult R = .ok img := by
  unfold createVariationFinal
  rw [if_neg (by simp [hgate])]

/-- C5: when the quality report's `regeneration_needed` is falsy (as in the
defaulted reports returned on parse failure), the final image is exactly the
first-generated image with the quality report attached, and no regeneration
call is made; both defaulted reports are indeed falsy. -/
theorem C5_no_regen_keeps_image (vi : ImageResult) (qc : Dict) (improved : ImageResult)
    (h : pyTruthy ((dictLookup "regeneration_needed" qc).getD (.bool false)) = false) :
    qualityStep vi qc improved = ({ vi with quality_check := some qc }, false) ∧
    (∀ e, pyTruthy ((dictLookup "regeneration_needed" (defaultQualityReport e)).getD
        (.bool false)) = false) ∧
    pyTruthy ((dictLookup "regeneration_needed" noContentReport).getD (.bool false))
      = false := by
  refine ⟨?_, ?_, rfl⟩
  · simp [qualityStep, h]
  · intro e; rfl

/-- Witness for `C5_no_regen_keeps_image` at a concrete variation image and
the defaulted no-content report. -/
theorem C5_no_regen_keeps_image_witness :
    pyTruthy ((dictLookup "regeneration_needed" noContentReport).getD (.bool false))
        = false ∧
    qualityStep { local_path := some "outputs/variations/variation_t0.png" }
        noContentReport { error := some "ignored" } =
      ({ local_path := some "outputs/variations/variation_t0.png",
         quality_check := some noContentReport }, false) :=
  ⟨rfl,
   (C5_no_regen_keeps_image { local_path := some "outputs/variations/variation_t0.png" }
     noContentReport { error := some "ignored" } rfl).1⟩

/-- C3 (amended): with `regeneration_needed` truthy and a quality report
whose issue list builds the feedback prompt without raising, a successful
regeneration makes the final image the regenerated one, tagged
`quality_improved = true`; a failed regeneration (edit call raising, empty
response data, no locatable screenshot, or a missing issue `type` while
assembling the result) keeps the original first-generated image with the
quality report attached and raises nothing — but, contra the claim, the
failure dict is discarded rather than recorded in the Variation record (see
`C3_failure_not_recorded_counterexample`).  On a malformed issue list the
pre-`try` feedback construction raises instead, and the error propagates
out of `_create_variation`. -/
theorem C3_regeneration_outcome (vi : ImageResult) (qc : Dict) (sp ts : String)
    (edit : String → Except String (Option String))
    (hgate : (truthyOptStr vi.local_path && !truthyOptStr vi.error) = true)
    (hneed : pyTruthy ((dictLookup "regeneration_needed" qc).getD (.bool false)) = true) :
    (∀ instr, buildFeedbackInstructions qc = .ok instr →
      (∀ b imps, edit "1024x1024" = .ok (some b) →
        improvementsApplied qc = .ok imps →
        regenerateWithFeedback qc (some sp) edit ts =
          .ok { local_path := some (improvedImagePath ts), error := none,
                quality_improved := true, quality_check := none,
                meta := [("original_screenshot_path", .str sp),
                         ("model", .str "gpt-image-1")] } ∧
        createVariationFinal vi (.ok qc)
            (fun q => regenerateWithFeedback q (some sp) edit ts) =
          .ok { local_path := some (improvedImagePath ts), error := none,
                quality_improved := true, quality_check := some qc,
                meta := [("original_screenshot_path", .str sp),
                         ("model", .str "gpt-image-1")] }) ∧
      (∀ e, edit "1024x1024" = .error e →
        createVariationFinal vi (.ok qc)
            (fun q => regenerateWithFeedback q (some sp) edit ts) =
          .ok { vi with quality_check := some qc }) ∧
      (edit "1024x1024" = .ok none →
        createVariationFinal vi (.ok qc)
            (fun q => regenerateWithFeedback q (some sp) edit ts) =
          .ok { vi with quality_check := some qc }) ∧
      (∀ b e, edit "1024x1024" = .ok (some b) →
        improvementsApplied qc = .error e →
        createVariationFinal vi (.ok qc)
            (fun q => regenerateWithFeedback q (some sp) edit ts) =
          .ok { vi with quality_check := some qc }) ∧
      (∀ edit' : String → Except String (Option String),
        createVariationFinal vi (.ok qc)
            (fun q => regenerateWithFeedback q none edit' ts) =
          .ok { vi with quality_check := some qc })) ∧
    (∀ e, buildFeedbackInstructions qc = .error e →
      ∀ edit' : String → Except String (Option String),
        createVariationFinal vi (.ok qc)
            (fun q => regenerateWithFeedback q (some sp) edit' ts) = .error e) := by
  constructor
  · intro instr hinstr
    refine ⟨?_, ?_, ?_, ?_, ?_⟩
    · intro b imps hb himps
      have hr : regenerateWithFeedback qc (some sp) edit ts =
          .ok { local_path := some (improvedImagePath ts),
                quality_improved := true,
                meta := [("original_screenshot_path", .str sp),
                         ("model", .str "gpt-image-1")] } := by
        simp [regenerateWithFeedback, hinstr, hb, himps]
      refine ⟨hr, ?_⟩
      rw [createVariationFinal_gate_ok hgate, if_pos hneed]
      simp only [hr]
      simp [qualityStep, hneed, truthyOptStr, improvedImagePath_ne_empty]
    · intro e he
      have hr : regenerateWithFeedback qc (some sp) edit ts =
          .ok { error := some e } := by
        simp [regenerateWithFeedback, hinstr, he]
      rw [createVariationFinal_gate_ok hgate, if_pos hneed]
      simp only [hr]
      simp [qualityStep, hneed, truthyOptStr]
    · intro he
      have hr : regenerateWithFeedback qc (some sp) edit ts =
          .ok { error := some "No image data in response" } := by
        simp [regenerateWithFeedback, hinstr, he]
      rw [createVariationFinal_gate_ok hgate, if_pos hneed]
      simp only [hr]
      simp [qualityStep, hneed, truthyOptStr]
    · intro b e hb himps
      have hr : regenerateWithFeedback qc (some sp) edit ts =
          .ok { error := some e } := by
        simp [regenerateWithFeedback, hinstr, hb, himps]
      rw [createVariationFinal_gate_ok hgate, if_pos hneed]
      simp only [hr]
      simp [qualityStep, hneed, truthyOptStr]
    · intro edit'
      have hr : regenerateWithFeedback qc none edit' ts =
          .ok { error := some "No original screenshot available" } := by
        simp [regenerateWithFeedback, hinstr]
      rw [createVariationFinal_gate_ok hgate, if_pos hneed]
      simp only [hr]
      simp [qualityStep, hneed, truthyOptStr]
  · intro e he edit'
    have hr : regenerateWithFeedback qc (some sp) edit' ts = .error e := by
      simp [regenerateWithFeedback, he]
    rw [createVariationFinal_gate_ok hgate, if_pos hneed]
    simp [hr]

/-- C3 counterexample: when regeneration fails after a well-formed feedback
build, the final Variation image is computed in full — it is the original
image with the quality report attached and the regeneration failure string
appears nowhere in it (its `error` field is `none`): the failure is only
logged, not recorded.  And on a malformed issue list, the pre-`try`
feedback construction raises (here `KeyError: severity`) out of
`_create_variation` instead of the claimed handled failure. -/
theorem C3_failure_not_recorded_counterexample :
    regenerateWithFeedback [("regeneration_needed", JsonVal.bool true)]
        (some "shot.png") (fun _ => .error "regen failed") "t1" =
      .ok { local_path := none, error := some "regen failed",
            quality_improved := false, quality_check := none, meta := [] } ∧
    createVariationFinal { local_path := some "outputs/variations/variation_t0.png" }
        (.ok [("regeneration_needed", JsonVal.bool true)])
        (fun q => regenerateWithFeedback q (some "shot.png")
          (fun _ => .error "regen failed") "t1") =
      .ok { local_path := some "outputs/variations/variation_t0.png", error := none,
            quality_improved := false,
            quality_check := some [("regeneration_needed", JsonVal.bool true)],
            meta := [] } ∧
    createVariationFinal { local_path := some "outputs/variations/variation_t0.png" }
        (.ok [("regeneration_needed", JsonVal.bool true),
              ("issues", JsonVal.arr [JsonVal.obj [("note", JsonVal.num 1)]])])
        (fun q => regenerateWithFeedback q (some "shot.png")
          (fun _ => .ok (some "b64")) "t1") =
      .error "KeyError: severity" :=
  ⟨rfl, rfl, rfl⟩

/-- Witness for `C3_regeneration_outcome` at a concrete successful
regeneration with a well-formed (issue-free) report. -/
theorem C3_regeneration_outcome_witness :
    (truthyOptStr (some "outputs/variations/variation_t0.png")
      && !truthyOptStr none) = true ∧
    pyTruthy ((dictLookup "regeneration_needed"
        [("regeneration_needed", JsonVal.bool true)]).getD (.bool false)) = true ∧
    buildFeedbackInstructions [("regeneration_needed", JsonVal.bool true)] =
      .ok ("\n\nCRITICAL QUALITY IMPROVEMENTS NEEDED:\n" ++ generalQualityGuidelines) ∧
    improvementsApplied [("regeneration_needed", JsonVal.bool true)] = .ok [] ∧
    createVariationFinal { local_path := some "outputs/variations/variation_t0.png" }
        (.ok [("regeneration_needed", JsonVal.bool true)])
        (fun q => regenerateWithFeedback q (some "shot.png")
          (fun _ => .ok (some "b64")) "t1") =
      .ok { local_path := some (improvedImagePath "t1"), error := none,
            quality_improved := true,
            quality_check := some [("regeneration_needed", JsonVal.bool true)],
            meta := [("original_screenshot_path", .str "shot.png"),
                     ("model", .str "gpt-image-1")] } :=
  ⟨rfl, rfl, rfl, rfl,
   (((C3_regeneration_outcome
        { local_path := some "outputs/variations/variation_t0.png" }
        [("regeneration_needed", JsonVal.bool true)] "shot.png" "t1"
        (fun _ => .ok (some "b64")) rfl rfl).1
      ("\n\nCRITICAL QUALITY IMPROVEMENTS NEEDED:\n" ++ generalQualityGuidelines) rfl).1
     "b64" [] rfl rfl).2⟩

/-- C10: the regeneration path invokes image editing with the hard-coded
square size `"1024x1024"` — its result depends on the edit callable only
through its value at `"1024x1024"` — while the first generation selects its
size from the aspect ratio and, for any landscape screenshot, uses
`"1536x1024"`, a different size. -/
theorem C10_regen_fixed_square_size :
    (∀ (qc : Dict) (sp ts : String) (e₁ e₂ : String → Except String (Option String)),
      e₁ "1024x1024" = e₂ "1024x1024" →
      regenerateWithFeedback qc (some sp) e₁ ts =
        regenerateWithFeedback qc (some sp) e₂ ts) ∧
    (∀ w h : Nat, 0 < h → h < w → getOptimalGenerationSize w h = .ok "1536x1024") ∧
    ("1024x1024" : String) ≠ "1536x1024" := by
  refine ⟨?_, ?_, by decide⟩
  · intro qc sp ts e₁ e₂ he
    simp only [regenerateWithFeedback, he]
  · intro w h hh hw
    simp only [getOptimalGenerationSize]
    rw [if_neg (Nat.pos_iff_ne_zero.mp hh), if_pos hw]

/-- Witness for `C10_regen_fixed_square_size`: two edit callables that agree
only at `"1024x1024"` give identical regenerations, and a 1920x1080 desktop
screenshot generates at `"1536x1024"`. -/
theorem C10_regen_fixed_square_size_witness :
    ((fun sz : String => if sz = "1024x1024"
        then (.ok (some "x") : Except String (Option String))
        else .error "never called") "1024x1024" =
      (fun _ : String => (.ok (some "x") : Except String (Option String)))
        "1024x1024") ∧
    regenerateWithFeedback noContentReport (some "shot.png")
        (fun sz => if sz = "1024x1024" then .ok (some "x") else .error "never called")
        "t2" =
      regenerateWithFeedback noContentReport (some "shot.png")
        (fun _ => .ok (some "x")) "t2" ∧
    getOptimalGenerationSize 1920 1080 = .ok "1536x1024" :=
  ⟨rfl,
   C10_regen_fixed_square_size.1 noContentReport "shot.png" "t2"
     (fun sz => if sz = "1024x1024" then .ok (some "x") else .error "never called")
     (fun _ => .ok (some "x")) rfl,
   C10_regen_fixed_square_size.2.1 1920 1080 (by decide) (by decide)⟩

/-- C8: the stylizer yields exactly one outcome per style, in input order —
a success record for each style whose application succeeds and a
`{style_name, error}` record for each that raises, independently of the
other styles — and pauses between consecutive batches of 5, i.e.
`(n - 1) / 5` times for `n` styles. -/
theorem C8_style_batch_outcomes (run : StyleSpec → Except String StyleOutcome)
    (styles : List StyleSpec) :
    applyStylesToImage run styles =
      (styles.map (fun st =>
        match run st with
        | .ok r => r
        | .error e => styleErrorOutcome st e),
       (styles.length - 1) / 5) := by
  have key : ∀ (fuel : Nat) (l : List StyleSpec), l.length ≤ fuel →
      applyStylesFuel run fuel l =
        (l.map (fun st =>
          match run st with
          | .ok r => r
          | .error e => styleErrorOutcome st e),
         (l.length - 1) / 5) := by
    intro fuel
    induction fuel with
    | zero =>
      intro l hl
      have : l = [] := List.length_eq_zero.mp (Nat.le_zero.mp hl)
      subst this
      rfl
    | succ f ih =>
      intro l hl
      cases l with
      | nil => rfl
      | cons s rest =>
        rw [show applyStylesFuel run (f + 1) (s :: rest) =
          (((s :: rest).take 5).map (fun st =>
              match run st with
              | .ok r => r
              | .error e => styleErrorOutcome st e)
            ++ (applyStylesFuel run f ((s :: rest).drop 5)).1,
           (if ((s :: rest).drop 5).isEmpty then 0 else 1)
             + (applyStylesFuel run f ((s :: rest).drop 5)).2) from rfl]
        have hlen : ((s :: rest).drop 5).length ≤ f := by
          simp only [List.length_drop, List.length_cons] at *
          omega
        rw [ih ((s :: rest).drop 5) hlen]
        refine Prod.ext ?_ ?_
        · simp only []
          rw [← List.map_append, List.take_append_drop]
        · simp only [List.length_drop, List.length_cons, List.isEmpty_iff,
            List.drop_eq_nil_iff]
          by_cases hle : rest.length + 1 ≤ 5
          · rw [if_pos (by simpa using hle)]
            omega
          · rw [if_neg (by simpa using hle)]
            omega
  exact key styles.length styles (Nat.le_refl _)

/-- C9: for a landscape original (width strictly greater than height) the
size selection always returns the landscape option `"1536x1024"`, whatever
the ratio's magnitude; otherwise it returns an available size whose aspect
ratio is closest to the original's (ties resolved towards the square by the
strict-improvement fold). -/
theorem C9_size_selection (w h : Nat) (hh : 0 < h) :
    (h < w → getOptimalGenerationSize w h = .ok "1536x1024") ∧
    (w ≤ h → ∃ p ∈ specAvailableSizes,
      getOptimalGenerationSize w h = .ok p.1 ∧
      ∀ q ∈ specAvailableSizes,
        |(w : ℚ) / (h : ℚ) - p.2| ≤ |(w : ℚ) / (h : ℚ) - q.2|) := by
  have hne : h ≠ 0 := Nat.pos_iff_ne_zero.mp hh
  constructor
  · intro hw
    simp only [getOptimalGenerationSize]
    rw [if_neg hne, if_pos hw]
  · intro hw
    have hnlt : ¬ (h < w) := Nat.not_lt.mpr hw
    set r : ℚ := (w : ℚ) / (h : ℚ) with hr
    have hhq : (0 : ℚ) < (h : ℚ) := by exact_mod_cast hh
    have hr0 : 0 ≤ r := div_nonneg (by positivity) (le_of_lt hhq)
    have hr1 : r ≤ 1 := by
      rw [hr, div_le_one hhq]
      exact_mod_cast hw
    have habs32 : |r - 3 / 2| = 3 / 2 - r := by
      rw [abs_of_nonpos (by linarith), neg_sub]
    have habs1 : |r - 1| = 1 - r := by
      rw [abs_of_nonpos (by linarith), neg_sub]
    have hstep2 : |r - 1| < |r - 3 / 2| := by
      rw [habs32, habs1]
      linarith
    have hfold : getOptimalGenerationSize w h =
        .ok (if |r - 667 / 1000| < |r - 1|
          then "1024x1536" else "1024x1024") := by
      simp only [getOptimalGenerationSize]
      rw [if_neg hne, if_neg hnlt]
      simp only [List.foldl_cons, List.foldl_nil, ← hr]
      rw [if_pos hstep2]
      by_cases hc : |r - 667 / 1000| < |r - 1|
      · simp [hc]
      · simp [hc]
    by_cases hc : r < 1667 / 2000
    · have hlt : |r - 667 / 1000| < |r - 1| := by
        rw [habs1]
        refine abs_lt.mpr ⟨by linarith, by linarith⟩
      refine ⟨("1024x1536", 667 / 1000), by simp [specAvailableSizes], ?_, ?_⟩
      · rw [hfold, if_pos hlt]
      · intro q hq
        have hb : |r - 667 / 1000| ≤ 1 - r := by rw [← habs1]; exact le_of_lt hlt
        have hb2 : |r - 667 / 1000| ≤ 3 / 2 - r := by linarith
        fin_cases hq
        · simpa [habs32] using hb2
        · simpa [habs1] using hb
        · simp
    · push_neg at hc
      have hge : ¬ (|r - 667 / 1000| < |r - 1|) := by
        rw [habs1, abs_of_nonneg (by linarith)]
        push_neg
        linarith
      refine ⟨("1024x1024", 1), by simp [specAvailableSizes], ?_, ?_⟩
      · rw [hfold, if_neg hge]
      · intro q hq
        fin_cases hq
        · rw [habs1, habs32]; linarith
        · simp
        · rw [habs1, abs_of_nonneg (by linarith)]
          linarith

/-- Witness for `C9_size_selection` at a portrait 1080x1920 screenshot. -/
theorem C9_size_selection_witness :
    ((1920 : Nat) < 1080 → getOptimalGenerationSize 1080 1920 = .ok "1536x1024") ∧
    ((1080 : Nat) ≤ 1920 → ∃ p ∈ specAvailableSizes,
      getOptimalGenerationSize 1080 1920 = .ok p.1 ∧
      ∀ q ∈ specAvailableSizes,
        |(1080 : ℚ) / (1920 : ℚ) - p.2| ≤ |(1080 : ℚ) / (1920 : ℚ) - q.2|) :=
  C9_size_selection 1080 1920 (by decide)

theorem qualityCheckImage_err {loads : List Char → Option JsonVal} {e : String} :
    qualityCheckImage loads (.error e) = defaultQualityReport e := rfl

theorem qualityCheckImage_ok {loads : List Char → Option JsonVal}
    {c : Option (List Char)} :
    qualityCheckImage loads (.ok c) =
      match qualityCheckBody loads c with
      | .ok r => r
      | .error e => defaultQualityReport e := rfl

/-- C6: the quality check parses the span from the first `{` to the last
`}` of the response; on every failure — the model call raising, empty or
missing content, missing brackets, a span `json.loads` rejects or that is
not a dict, or the logging loop raising — it returns a report whose
`has_issues` and `regeneration_needed` are both `false` instead of raising.
Every outcome is one of the two disjuncts below. -/
theorem C6_quality_check_lenient (loads : List Char → Option JsonVal)
    (apiResult : Except String (Option (List Char))) :
    (∃ text i j kvs, apiResult = .ok (some text) ∧
      List.findIdx? (fun c => c = Char.ofNat 123) text = some i ∧
      (List.findIdx? (fun c => c = Char.ofNat 125) text.reverse).map
        (fun j' => text.length - 1 - j') = some j ∧
      loads ((text.drop i).take (j + 1 - i)) = some (.obj kvs) ∧
      qualityCheckImage loads apiResult = kvs) ∨
    (dictLookup "has_issues" (qualityCheckImage loads apiResult) = some (.bool false) ∧
     dictLookup "regeneration_needed" (qualityCheckImage loads apiResult) =
       some (.bool false)) := by
  cases apiResult with
  | error e =>
    right
    rw [qualityCheckImage_err]
    exact ⟨rfl, rfl⟩
  | ok content =>
    cases content with
    | none =>
      right
      rw [qualityCheckImage_ok]
      exact ⟨rfl, rfl⟩
    | some text =>
      by_cases hemp : text.isEmpty = true
      · right
        rw [qualityCheckImage_ok]
        have hb : qualityCheckBody loads (some text) = .ok noContentReport := by
          simp [qualityCheckBody, hemp]
        rw [hb]
        exact ⟨rfl, rfl⟩
      · cases hI : List.findIdx? (fun c => c = Char.ofNat 123) text with
        | none =>
          right
          rw [qualityCheckImage_ok]
          have hb : qualityCheckBody loads (some text) =
              .error "NameError: quality_analysis is not defined" := by
            simp [qualityCheckBody, hemp, hI]
          rw [hb]
          exact ⟨rfl, rfl⟩
        | some i =>
          cases hJ : (List.findIdx? (fun c => c = Char.ofNat 125) text.reverse).map
              (fun j' => text.length - 1 - j') with
          | none =>
            right
            rw [qualityCheckImage_ok]
            have hb : qualityCheckBody loads (some text) =
                .error "NameError: quality_analysis is not defined" := by
              simp [qualityCheckBody, hemp, hI, hJ]
            rw [hb]
            exact ⟨rfl, rfl⟩
          | some j =>
            cases hload : loads ((text.drop i).take (j + 1 - i)) with
            | none =>
              right
              rw [qualityCheckImage_ok]
              have hb : qualityCheckBody loads (some text) = .error "JSONDecodeError" := by
                simp [qualityCheckBody, hemp, hI, hJ, hload]
              rw [hb]
              exact ⟨rfl, rfl⟩
            | some v =>
              cases v with
              | obj kvs =>
                cases hlog : logIssues kvs with
                | error e =>
                  right
                  rw [qualityCheckImage_ok]
                  have hb : qualityCheckBody loads (some text) = .error e := by
                    simp [qualityCheckBody, hemp, hI, hJ, hload, hlog]
                  rw [hb]
                  exact ⟨rfl, rfl⟩
                | ok u =>
                  left
                  refine ⟨text, i, j, kvs, rfl, hI, hJ, hload, ?_⟩
                  rw [qualityCheckImage_ok]
                  have hb : qualityCheckBody loads (some text) = .ok kvs := by
                    simp [qualityCheckBody, hemp, hI, hJ, hload, hlog]
                  rw [hb]
              | str s =>
                right
                rw [qualityCheckImage_ok]
                have hb : qualityCheckBody loads (some text) =
                    .error "AttributeError: no attribute get" := by
                  simp [qualityCheckBody, hemp, hI, hJ, hload]
                rw [hb]
                exact ⟨rfl, rfl⟩
              | num n =>
                right
                rw [qualityCheckImage_ok]
                have hb : qualityCheckBody loads (some text) =
                    .error "AttributeError: no attribute get" := by
                  simp [qualityCheckBody, hemp, hI, hJ, hload]
                rw [hb]
                exact ⟨rfl, rfl⟩
              | bool b =>
                right
                rw [qualityCheckImage_ok]
                have hb : qualityCheckBody loads (some text) =
                    .error "AttributeError: no attribute get" := by
                  simp [qualityCheckBody, hemp, hI, hJ, hload]
                rw [hb]
                exact ⟨rfl, rfl⟩
              | null =>
                right
                rw [qualityCheckImage_ok]
                have hb : qualityCheckBody loads (some text) =
                    .error "AttributeError: no attribute get" := by
                  simp [qualityCheckBody, hemp, hI, hJ, hload]
                rw [hb]
                exact ⟨rfl, rfl⟩
              | arr xs =>
                right
                rw [qualityCheckImage_ok]
                have hb : qualityCheckBody loads (some text) =
                    .error "AttributeError: no attribute get" := by
                  simp [qualityCheckBody, hemp, hI, hJ, hload]
                rw [hb]
                exact ⟨rfl, rfl⟩

theorem getOptimalGenerationSize_isOk (w h : Nat) (hh : h ≠ 0) :
    ∃ s, getOptimalGenerationSize w h = .ok s := by
  simp only [getOptimalGenerationSize]
  rw [if_neg hh]
  by_cases hw : h < w
  · rw [if_pos hw]
    exact ⟨_, rfl⟩
  · rw [if_neg hw]
    exact ⟨_, rfl⟩

theorem createVariation_edit_ok {pid : String} {inp : PatternRun}
    {m c : String} {sp : String} {q : Dict}
    (hm : inp.modifyResult = .ok m) (hr : inp.reactResult = .ok c)
    (hs : inp.screenshotPath = some sp) (hh : inp.height ≠ 0)
    (hq : inp.qcResult = .ok q)
    (hqneed : pyTruthy ((dictLookup "regeneration_needed" q).getD (.bool false)) = false)
    (hedit : ∀ s, ∃ b, inp.editResult s = .ok b) :
    ∃ v, createVariation pid inp = .ok v ∧
      truthyOptStr v.generated_image.local_path = true ∧
      v.generated_image.error = none := by
  obtain ⟨os, hos⟩ := getOptimalGenerationSize_isOk inp.width inp.height hh
  obtain ⟨b, hb⟩ := hedit os
  have himg : generateVariationImageWithScreenshot inp.screenshotPath inp.width
      inp.height inp.editResult inp.ts inp.textOnly =
      { local_path := some (variationImagePath inp.ts),
        meta := [("original_screenshot_path", .str sp),
                 ("generated_size", .str os),
                 ("model", .str "gpt-image-1")] } := by
    rw [hs]
    simp only [generateVariationImageWithScreenshot, hos, hb]
  have hfin : createVariationFinal
      { local_path := some (variationImagePath inp.ts),
        meta := [("original_screenshot_path", .str sp),
                 ("generated_size", .str os),
                 ("model", .str "gpt-image-1")] }
      inp.qcResult
      (fun qc => regenerateWithFeedback qc inp.regenScreenshotPath
        inp.regenEdit inp.regenTs) =
      .ok { local_path := some (variationImagePath inp.ts),
            quality_check := some q,
            meta := [("original_screenshot_path", .str sp),
                     ("generated_size", .str os),
                     ("model", .str "gpt-image-1")] } := by
    rw [hq,
      createVariationFinal_gate_ok (by simp [truthyOptStr, variationImagePath_ne_empty]),
      if_neg (by simp [hqneed])]
  have hcv : createVariation pid inp =
      .ok { id := pid,
            generated_image :=
              { local_path := some (variationImagePath inp.ts),
                quality_check := some q,
                meta := [("original_screenshot_path", .str sp),
                         ("generated_size", .str os),
                         ("model", .str "gpt-image-1")] },
            modified_components := m, react_code := c } := by
    unfold createVariation
    rw [hm, hr, himg, hfin]
    rfl
  refine ⟨_, hcv, ?_, rfl⟩
  simp [truthyOptStr, variationImagePath_ne_empty]

theorem createVariation_edit_fails {pid : String} {inp : PatternRun}
    {m c : String} {sp : String} {efail : String}
    (hm : inp.modifyResult = .ok m) (hr : inp.reactResult = .ok c)
    (hs : inp.screenshotPath = some sp) (hh : inp.height ≠ 0)
    (hedit : ∀ s, inp.editResult s = .error efail) :
    ∃ v, createVariation pid inp = .ok v ∧
      v.generated_image.local_path = none ∧
      v.generated_image.error = some efail := by
  obtain ⟨os, hos⟩ := getOptimalGenerationSize_isOk inp.width inp.height hh
  have himg : generateVariationImageWithScreenshot inp.screenshotPath inp.width
      inp.height inp.editResult inp.ts inp.textOnly =
      { error := some efail,
        meta := [("original_screenshot_path", .str sp)] } := by
    rw [hs]
    simp only [generateVariationImageWithScreenshot, hos, hedit os]
  have hfin : createVariationFinal
      { error := some efail, meta := [("original_screenshot_path", .str sp)] }
      inp.qcResult
      (fun qc => regenerateWithFeedback qc inp.regenScreenshotPath
        inp.regenEdit inp.regenTs) =
      .ok { error := some efail,
            meta := [("original_screenshot_path", .str sp)] } :=
    createVariationFinal_gate_skip (by simp [truthyOptStr])
  have hcv : createVariation pid inp =
      .ok { id := pid,
            generated_image :=
              { error := some efail,
                meta := [("original_screenshot_path", .str sp)] },
            modified_components := m, react_code := c } := by
    unfold createVariation
    rw [hm, hr, himg, hfin]
    rfl
  exact ⟨_, hcv, rfl, rfl⟩

/-- C4: generating "all" patterns when exactly one pattern's image-edit call
fails — the other stages nominal: their calls succeed and each quality
report requests no regeneration, as the defaulted reports do — still yields
4 Variation records keyed by pattern: the failing pattern's record carries
the recorded error in its image result instead of an image, the other three
carry populated images, and no record is omitted.  (A report that requests
regeneration with a malformed issue list would instead raise out of
`_regenerate_with_feedback` and drop that pattern's record: see
`C3_regeneration_outcome`.) -/
theorem C4_one_failure_still_four_records
    (inp : String → PatternRun) (pfail efail : String)
    (hp : pfail ∈ patternIds)
    (hmod : ∀ pid ∈ patternIds, ∃ m, (inp pid).modifyResult = .ok m)
    (hreact : ∀ pid ∈ patternIds, ∃ c, (inp pid).reactResult = .ok c)
    (hshot : ∀ pid ∈ patternIds, ∃ sp, (inp pid).screenshotPath = some sp)
    (hh : ∀ pid ∈ patternIds, (inp pid).height ≠ 0)
    (hqc : ∀ pid ∈ patternIds, ∃ q, (inp pid).qcResult = .ok q ∧
      pyTruthy ((dictLookup "regeneration_needed" q).getD (.bool false)) = false)
    (hfail : ∀ s, (inp pfail).editResult s = .error efail)
    (hok : ∀ pid ∈ patternIds, pid ≠ pfail → ∀ s, ∃ b, (inp pid).editResult s = .ok b) :
    (generateAllVariations (fun pid => createVariation pid (inp pid))).length = 4 ∧
    ∀ pid ∈ patternIds, ∃ v,
      ("variation_" ++ pid, v) ∈
        generateAllVariations (fun pid => createVariation pid (inp pid)) ∧
      (pid = pfail → v.generated_image.local_path = none ∧
        v.generated_image.error = some efail) ∧
      (pid ≠ pfail → truthyOptStr v.generated_image.local_path = true ∧
        v.generated_image.error = none) := by
  have hper : ∀ pid ∈ patternIds, ∃ v, createVariation pid (inp pid) = .ok v ∧
      (pid = pfail → v.generated_image.local_path = none ∧
        v.generated_image.error = some efail) ∧
      (pid ≠ pfail → truthyOptStr v.generated_image.local_path = true ∧
        v.generated_image.error = none) := by
    intro pid hpid
    obtain ⟨m, hm⟩ := hmod pid hpid
    obtain ⟨c, hc⟩ := hreact pid hpid
    obtain ⟨sp, hs⟩ := hshot pid hpid
    obtain ⟨q, hq, hqn⟩ := hqc pid hpid
    by_cases hcase : pid = pfail
    · subst hcase
      obtain ⟨v, hv, h1, h2⟩ := createVariation_edit_fails hm hc hs (hh pid hpid) hfail
      exact ⟨v, hv, fun _ => ⟨h1, h2⟩, fun hne => absurd rfl hne⟩
    · obtain ⟨v, hv, h1, h2⟩ :=
        createVariation_edit_ok hm hc hs (hh pid hpid) hq hqn (hok pid hpid hcase)
      exact ⟨v, hv, fun heq => absurd heq hcase, fun _ => ⟨h1, h2⟩⟩
  obtain ⟨v1, hv1, hp1⟩ := hper "1" (by simp [patternIds])
  obtain ⟨v2, hv2, hp2⟩ := hper "2" (by simp [patternIds])
  obtain ⟨v3, hv3, hp3⟩ := hper "3" (by simp [patternIds])
  obtain ⟨v4, hv4, hp4⟩ := hper "4" (by simp [patternIds])
  have hlist : generateAllVariations (fun pid => createVariation pid (inp pid)) =
      [("variation_" ++ "1", v1), ("variation_" ++ "2", v2),
       ("variation_" ++ "3", v3), ("variation_" ++ "4", v4)] := by
    simp [generateAllVariations, patternIds, hv1, hv2, hv3, hv4]
  constructor
  · rw [hlist]
    rfl
  · intro pid hpid
    rw [hlist]
    rcases (show pid = "1" ∨ pid = "2" ∨ pid = "3" ∨ pid = "4" by
      simpa [patternIds] using hpid) with h | h | h | h
    · subst h
      exact ⟨v1, by simp, hp1⟩
    · subst h
      exact ⟨v2, by simp, hp2⟩
    · subst h
      exact ⟨v3, by simp, hp3⟩
    · subst h
      exact ⟨v4, by simp, hp4⟩

/-- Witness for `C4_one_failure_still_four_records` with pattern "3"'s image
call forced to fail. -/
theorem C4_one_failure_still_four_records_witness :
    (generateAllVariations (fun pid => createVariation pid (c4Inputs pid))).length = 4 ∧
    ∀ pid ∈ patternIds, ∃ v,
      ("variation_" ++ pid, v) ∈
        generateAllVariations (fun pid => createVariation pid (c4Inputs pid)) ∧
      (pid = "3" → v.generated_image.local_path = none ∧
        v.generated_image.error = some "edit failed") ∧
      (pid ≠ "3" → truthyOptStr v.generated_image.local_path = true ∧
        v.generated_image.error = none) :=
  C4_one_failure_still_four_records c4Inputs "3" "edit failed"
    (by decide)
    (by
      intro pid _
      refine ⟨"modified structure", ?_⟩
      by_cases h : pid = "3" <;> simp [c4Inputs, h, runFailExample, runOkExample])
    (by
      intro pid _
      refine ⟨"react code", ?_⟩
      by_cases h : pid = "3" <;> simp [c4Inputs, h, runFailExample, runOkExample])
    (by
      intro pid _
      refine ⟨"outputs/screenshots/segment_1_top.png", ?_⟩
      by_cases h : pid = "3" <;> simp [c4Inputs, h, runFailExample, runOkExample])
    (by
      intro pid _
      by_cases h : pid = "3" <;> simp [c4Inputs, h, runFailExample, runOkExample])
    (by
      intro pid _
      refine ⟨noContentReport, ?_, rfl⟩
      by_cases h : pid = "3" <;> simp [c4Inputs, h, runFailExample, runOkExample])
    (by
      intro s
      simp [c4Inputs, runFailExample, runOkExample])
    (by
      intro pid _ hne s
      refine ⟨"b64 image", ?_⟩
      simp [c4Inputs, hne, runOkExample])

end AgentFlux

